import Mathlib

/-!
Verification of the core of the `digital_twin_smart_buildings` backend:
the Action State Engine (`core/services/action_state_service.py`), the
Suggestion Generator (`core/suggestions_engine/smart_suggestions.py`), and
the Anomaly Ensemble Scorer (`api/routes/anomaly_routes.py`,
`api/routes/dashboard_routes.py`, `core/anomaly_engine/*`).

Modelling conventions, used throughout:
* Python floats are modelled as exact rationals (`ℚ`); IEEE rounding of the
  arithmetic is abstracted away, the literal constants (`0.85`, `1e-8`,
  `0.05`, ...) are taken at their decimal value.
* `json.dumps(payload, sort_keys=True)` followed by
  `hashlib.sha1(...).hexdigest()[:12]` is modelled by the constructor
  `Key.khash` applied to the canonically sorted payload: the serialization
  is deterministic and key-order independent, and the digest is assumed
  collision-free on the payloads that actually occur (the standard
  assumption for content hashes).  Client-supplied key strings are
  `Key.kstr` and are assumed not to collide with digests.
* Suggestion payloads crossing the HTTP boundary are typed as in the
  pydantic model `Suggestion` of `api/routes/suggestions_routes.py`
  (`id`, `type`, `description`, `estimated_savings_kwh`, `comfort_risk`
  required; `params`, `signature`, `dedupe_key` optional).
-/

/-- A primitive JSON value as it occurs in `params` / `context` mappings:
Python `str`, `int` or `float` (these serialize differently under
`json.dumps`, hence the separate constructors). -/
inductive PVal where
  | pstr : String → PVal
  | pint : ℤ → PVal
  | pfloat : ℚ → PVal
deriving DecidableEq, Repr

/-- The payload fed to `_stable_hash` in either module: the dict
`{"v": v, "type": type, "params": params}` optionally extended with a
`"context"` mapping (suggestion engine) or a `"desc"` string (action state
service).  `none` models the key being absent from the dict (absent and
empty serialize differently). -/
structure HashPayload where
  v : ℕ
  type : String
  params : List (String × PVal)
  context : Option (List (String × PVal))
  desc : Option String
deriving DecidableEq, Repr

/-- A content-hash string as it flows through the system: either a raw
client-supplied string (`kstr`, possibly empty) or the 12-hex-char sha1
digest of the canonical serialization of a payload (`khash`), modelled
injectively (collision-freedom assumption). -/
inductive Key where
  | kstr : String → Key
  | khash : HashPayload → Key
deriving DecidableEq, Repr

/-- Python falsiness test on a key string (`if not dedupe_key`). -/
def Key.isEmptyStr : Key → Bool
  | .kstr s => s = ""
  | .khash _ => false

/-- Insert/overwrite in an association list, preserving the position of an
existing key: Python `d[k] = v` dict semantics (insertion order kept). -/
def alInsert {α β : Type} [DecidableEq α] (m : List (α × β)) (k : α) (v : β) :
    List (α × β) :=
  match m with
  | [] => [(k, v)]
  | (k₁, v₁) :: rest =>
      if k₁ = k then (k, v) :: rest else (k₁, v₁) :: alInsert rest k v

/-- Lookup in an association list: Python `d.get(k)`. -/
def alLookup {α β : Type} [DecidableEq α] (m : List (α × β)) (k : α) : Option β :=
  match m with
  | [] => none
  | (k₁, v₁) :: rest => if k₁ = k then some v₁ else alLookup rest k

/-- Remove a key from an association list: Python `d.pop(k, None)`. -/
def alErase {α β : Type} [DecidableEq α] (m : List (α × β)) (k : α) :
    List (α × β) :=
  m.filter (fun p => p.1 ≠ k)

/-- Add to a set modelled as a duplicate-free list: Python `s.add(x)`. -/
def setAdd {α : Type} [DecidableEq α] (l : List α) (x : α) : List α :=
  if x ∈ l then l else x :: l

/-- Remove from a set: Python `s.discard(x)`. -/
def setDiscard {α : Type} [DecidableEq α] (l : List α) (x : α) : List α :=
  l.filter (fun y => y ≠ x)

/-- Python `round` to an integer: round-half-to-even (banker's rounding). -/
def pyRound (q : ℚ) : ℤ :=
  let f := ⌊q⌋
  let r := q - (f : ℚ)
  if r < 1/2 then f
  else if 1/2 < r then f + 1
  else if Even f then f else f + 1

/-- `SuggestionEngine._round_step`: `round(value / step) * step`, the
identity when `step <= 0`. -/
def round_step (value step : ℚ) : ℚ :=
  if step ≤ 0 then value else (pyRound (value / step) : ℚ) * step

/-- Python `f"{q:.1f}"` for the non-negative multiples of `1/10` that occur
in the engine (setpoint bands and descriptions). -/
def formatQ1 (q : ℚ) : String :=
  let n := pyRound (q * 10)
  toString (n / 10) ++ "." ++ toString (n % 10).natAbs

/-- ASCII whitespace as matched by the regex class `\s`. -/
def pySpace (c : Char) : Bool :=
  c = ' ' || c = '\t' || c = '\n' || c = '\x0d' || c = '\x0b' || c = '\x0c'

/-- Digit run and remainder (`\d+` maximal munch). -/
def spanDigits (cs : List Char) : List Char × List Char :=
  (cs.takeWhile Char.isDigit, cs.dropWhile Char.isDigit)

/-- Value of a digit string. -/
def digitsToNat (ds : List Char) : ℕ :=
  ds.foldl (fun acc c => acc * 10 + (c.toNat - '0'.toNat)) 0

/-- `float(group)` for a matched group of shape `digits(.digits)?`. -/
def groupToRat (g : List Char) : ℚ :=
  let ip := g.takeWhile (fun c => c ≠ '.')
  let fp := (g.dropWhile (fun c => c ≠ '.')).drop 1
  (digitsToNat ip : ℚ) + (digitsToNat fp : ℚ) / ((10 : ℚ) ^ fp.length)

/-- Try to match the regex `(\d+(?:\.\d+)?)\s*°?C` anchored at the head of
`cs`; on success return the chars of capture group 1.  For this pattern,
haltering the greedy sub-matches never recovers a failed suffix (the next
char after fewer digits is a digit, which matches none of `.`, `\s`, `°`,
`C`), so maximal munch is exactly Python's backtracking semantics. -/
def matchSetpointAt (cs : List Char) : Option (List Char) :=
  let (ds, rest) := spanDigits cs
  if ds.isEmpty then none
  else
    let (grp, rest₁) :=
      match rest with
      | '.' :: r =>
          let (fs, r₁) := spanDigits r
          if fs.isEmpty then (ds, rest) else (ds ++ '.' :: fs, r₁)
      | _ => (ds, rest)
    let rest₂ := rest₁.dropWhile pySpace
    let rest₃ := match rest₂ with
      | '°' :: r => r
      | _ => rest₂
    match rest₃ with
    | 'C' :: _ => some grp
    | _ => none

/-- `re.search(r"(\d+(?:\.\d+)?)\s*°?C", s)`: leftmost match. -/
def searchSetpoint : List Char → Option (List Char)
  | [] => none
  | c :: rest =>
      match matchSetpointAt (c :: rest) with
      | some g => some g
      | none => searchSetpoint rest

/-- Try to match `(\d+)\s*ppm` (case-insensitive) at the head of `cs`. -/
def matchPpmAt (cs : List Char) : Option (List Char) :=
  let (ds, rest) := spanDigits cs
  if ds.isEmpty then none
  else
    match rest.dropWhile pySpace with
    | p₁ :: p₂ :: m :: _ =>
        if (p₁ = 'p' ∨ p₁ = 'P') ∧ (p₂ = 'p' ∨ p₂ = 'P') ∧ (m = 'm' ∨ m = 'M')
        then some ds else none
    | _ => none

/-- `re.search(r"(\d+)\s*ppm", s, re.IGNORECASE)`: leftmost match. -/
def searchPpm : List Char → Option (List Char)
  | [] => none
  | c :: rest =>
      match matchPpmAt (c :: rest) with
      | some g => some g
      | none => searchPpm rest

/-- Lexicographic comparison of key strings by code point (the order
`sorted` / `json.dumps(..., sort_keys=True)` uses on the ASCII keys). -/
def keyLt : List Char → List Char → Bool
  | [], [] => false
  | [], _ :: _ => true
  | _ :: _, [] => false
  | c :: cs, d :: ds =>
      if c.toNat < d.toNat then true
      else if d.toNat < c.toNat then false
      else keyLt cs ds

/-- Ascending insertion by key (for the key-sorting that
`json.dumps(..., sort_keys=True)` performs; dict keys are unique). -/
def insertByKey (p : String × PVal) :
    List (String × PVal) → List (String × PVal)
  | [] => [p]
  | q :: qs =>
      if keyLt p.1.toList q.1.toList then p :: q :: qs
      else q :: insertByKey p qs

/-- Sort an association list by key. -/
def sortByKey : List (String × PVal) → List (String × PVal)
  | [] => []
  | p :: ps => insertByKey p (sortByKey ps)

/-- `_stable_hash` (identical in both modules):
`sha1(json.dumps(payload, sort_keys=True, separators=(",", ":")))[:12]`,
modelled as the injective constructor `Key.khash` applied to the payload
with its mappings canonically key-sorted. -/
def stable_hash (v : ℕ) (type : String) (params : List (String × PVal))
    (context : Option (List (String × PVal))) (desc : Option String) : Key :=
  .khash ⟨v, type, sortByKey params, context.map sortByKey, desc⟩

namespace ActionStateService

/-- A suggestion payload as it reaches `ActionStateService` through the
route layer (pydantic model `Suggestion` in `suggestions_routes.py`):
`id`/`type`/`description`/`estimated_savings_kwh`/`comfort_risk` are
required (strings may still be empty), the rest optional.  `params` is
`none` both when the field is absent and when it is not a dict
(`isinstance(params, dict)` fails). -/
structure SuggestionPayload where
  id : String
  type : String
  description : String
  estimated_savings_kwh : ℚ
  comfort_risk : String
  params : Option (List (String × PVal))
  signature : Option Key
  dedupe_key : Option Key
deriving DecidableEq, Repr

/-- `AppliedAction` dataclass of `action_state_service.py`. -/
structure AppliedAction where
  id : String
  type : String
  description : String
  estimated_savings_kwh : ℚ
  comfort_risk : String
  applied_at : String
  params : List (String × PVal)
  dedupe_key : Key
  signature : Key
deriving DecidableEq, Repr

/-- The per-building slice of the four dicts held by `ActionStateService`
(`_applied_by_building`, `_dismissed_ids_by_building`,
`_dismissed_keys_by_building`, `_version_by_building`).  Every operation
reads and writes only the entries of the building it is given, so the
service is modelled building-wise; a building never seen before has the
empty slice `init` (the `.get(building_id, ...)` / `setdefault` defaults). -/
structure BuildingState where
  applied : List (String × AppliedAction)
  dismissed_ids : List String
  dismissed_keys : List Key
  version : ℕ
deriving DecidableEq, Repr

/-- The lazily-created initial slice: empty registries, version 0. -/
def init : BuildingState := ⟨[], [], [], 0⟩

/-- `str(suggestion.get(field) or "")` for an optional key-valued field. -/
def keyOrEmpty (o : Option Key) : Key :=
  match o with
  | none => .kstr ""
  | some k => k

/-- `ActionStateService._infer_params`: fallback `params` from `type` plus
free-text `description` by fixed per-type rules. -/
def infer_params (s : SuggestionPayload) : List (String × PVal) :=
  if s.type = "setpoint_change" then
    let target : ℚ :=
      match searchSetpoint s.description.toList with
      | some g => groupToRat g
      | none => 23
    [("setpoint_c_target", .pfloat target)]
  else if s.type = "hvac_schedule" then
    [("schedule", .pstr "optimized")]
  else if s.type = "ventilation" then
    let threshold : ℤ :=
      match searchPpm s.description.toList with
      | some g => (digitsToNat g : ℤ)
      | none => 900
    [("co2_threshold_ppm", .pint threshold)]
  else []

/-- The `params` a mutation uses: the payload's dict when present, else the
inferred fallback. -/
def paramsOf (s : SuggestionPayload) : List (String × PVal) :=
  match s.params with
  | some p => p
  | none => infer_params s

/-- `ActionStateService._extract_similarity`: `(dedupe_key, signature)`,
with the stable-hash fallbacks `hash({v:1, type, params})` and
`hash({v:1, type, params, desc})` when the fields are absent or empty. -/
def extract_similarity (s : SuggestionPayload) : Key × Key :=
  let dk := keyOrEmpty s.dedupe_key
  let sg := keyOrEmpty s.signature
  let ps := paramsOf s
  let dk₁ := if dk.isEmptyStr then stable_hash 1 s.type ps none none else dk
  let sg₁ := if sg.isEmptyStr then stable_hash 1 s.type ps none (some s.description) else sg
  (dk₁, sg₁)

/-- `ActionStateService.should_suppress_suggestion` (read-only: it returns
only a `Bool`, mirroring that the source performs no writes and no version
bump there). -/
def should_suppress_suggestion (st : BuildingState) (s : SuggestionPayload) :
    Bool :=
  let sid := s.id
  let dk := (extract_similarity s).1
  (decide (sid ≠ "") && decide (sid ∈ st.applied.map Prod.fst))
  || (decide (sid ≠ "") && decide (sid ∈ st.dismissed_ids))
  || (!dk.isEmptyStr
      && (decide (dk ∈ st.dismissed_keys)
          || st.applied.any (fun p => p.2.dedupe_key = dk)))

/-- `ActionStateService.apply_suggestion`.  `now` stands for
`datetime.now(timezone.utc).isoformat()`.  The `ValueError`s raised for a
missing `building_id` / `suggestion.id` become `Except.error`; they are
raised before any mutation, so an erroring call yields no new state. -/
def apply_suggestion (building_id : String) (now : String)
    (st : BuildingState) (s : SuggestionPayload) :
    Except String (AppliedAction × BuildingState) :=
  if building_id = "" then .error "building_id is required"
  else
    let sid := s.id
    if sid = "" then .error "suggestion.id is required"
    else
      let st₁ := { st with dismissed_ids := setDiscard st.dismissed_ids sid }
      let dk := (extract_similarity s).1
      let sg := (extract_similarity s).2
      let st₂ :=
        if dk.isEmptyStr then st₁
        else { st₁ with dismissed_keys := setDiscard st₁.dismissed_keys dk }
      let action : AppliedAction :=
        { id := sid
          type := s.type
          description := s.description
          estimated_savings_kwh := s.estimated_savings_kwh
          comfort_risk := if s.comfort_risk = "" then "low" else s.comfort_risk
          applied_at := now
          params := paramsOf s
          dedupe_key := dk
          signature := sg }
      let st₃ := { st₂ with applied := alInsert st₂.applied sid action }
      .ok (action, { st₃ with version := st₃.version + 1 })

/-- `ActionStateService.dismiss_suggestion`. -/
def dismiss_suggestion (building_id suggestion_id : String)
    (s : Option SuggestionPayload) (st : BuildingState) :
    Except String BuildingState :=
  if building_id = "" then .error "building_id is required"
  else if suggestion_id = "" then .error "suggestion_id is required"
  else
    let st₁ := { st with applied := alErase st.applied suggestion_id }
    let st₂ :=
      { st₁ with dismissed_ids := setAdd st₁.dismissed_ids suggestion_id }
    let st₃ :=
      match s with
      | none => st₂
      | some payload =>
          let dk := (extract_similarity payload).1
          if dk.isEmptyStr then st₂
          else { st₂ with dismissed_keys := setAdd st₂.dismissed_keys dk }
    .ok { st₃ with version := st₃.version + 1 }

/-- A mutation request against one building's registry. -/
inductive Op where
  | applyOp (now : String) (s : SuggestionPayload)
  | dismissOp (suggestion_id : String) (s : Option SuggestionPayload)

/-- One mutation as the running service executes it: a raised
`ValidationError` leaves the registry unchanged. -/
def runOp (building_id : String) (st : BuildingState) : Op → BuildingState
  | .applyOp now s =>
      match apply_suggestion building_id now st s with
      | .ok (_, st₁) => st₁
      | .error _ => st
  | .dismissOp sid s =>
      match dismiss_suggestion building_id sid s st with
      | .ok st₁ => st₁
      | .error _ => st

/-- A whole request history against one building, starting from the
lazily-created empty slice. -/
def runOps (building_id : String) (ops : List Op) : BuildingState :=
  ops.foldl (runOp building_id) init

/-- Whether a mutation passes its identifier validation (succeeds). -/
def Op.valid (building_id : String) : Op → Prop
  | .applyOp _ s => building_id ≠ "" ∧ s.id ≠ ""
  | .dismissOp sid _ => building_id ≠ "" ∧ sid ≠ ""

instance (building_id : String) (op : Op) :
    Decidable (op.valid building_id) := by
  cases op <;> unfold Op.valid <;> infer_instance

end ActionStateService

namespace SuggestionEngine

/-- The id string `f"{suggestion_type}:{building_id}:{signature}"`, kept as
its three components (the signature component is a digest, see `Key`). -/
structure SuggId where
  type : String
  building : String
  sig : Key
deriving DecidableEq, Repr

/-- A suggestion dict as built by `SuggestionEngine._make_suggestion`. -/
structure Sugg where
  id : SuggId
  type : String
  description : String
  estimated_savings_kwh : ℚ
  comfort_risk : String
  params : List (String × PVal)
  signature : Key
  dedupe_key : Key
deriving DecidableEq, Repr

/-- Whether a context key participates in the dedupe hash:
`k.endswith("_bucket") or k.endswith("_band")`. -/
def isBucketed (k : String) : Bool :=
  List.isSuffixOf "_bucket".toList k.toList
  || List.isSuffixOf "_band".toList k.toList

/-- `SuggestionEngine._make_suggestion`: full-context signature,
bucketed-context dedupe key, id from type/building/signature.  The
key-sorting of `json.dumps(..., sort_keys=True)` (and of the
`for k in sorted(context.keys())` comprehension) happens inside
`stable_hash`. -/
def make_suggestion (building_id suggestion_type description : String)
    (estimated_savings_kwh : ℚ) (comfort_risk : String)
    (params context : List (String × PVal)) (version : ℕ) : Sugg :=
  let signature := stable_hash version suggestion_type params (some context) none
  let dedupeCtx := context.filter (fun kv => isBucketed kv.1)
  let dedupe := stable_hash version suggestion_type params (some dedupeCtx) none
  { id := ⟨suggestion_type, building_id, signature⟩
    type := suggestion_type
    description := description
    estimated_savings_kwh := estimated_savings_kwh
    comfort_risk := comfort_risk
    params := params
    signature := signature
    dedupe_key := dedupe }

/-- A row of the long-format telemetry frame returned by
`timeseries_service.get_metrics` (`metric` / `value` columns). -/
structure TRow where
  metric : String
  value : ℚ
deriving DecidableEq, Repr

/-- `series.mean()` over a non-empty value column (sum / length). -/
def listMean (l : List ℚ) : ℚ := l.sum / l.length

/-- `series.min()` over a non-empty list. -/
def listMin : List ℚ → ℚ
  | [] => 0
  | x :: xs => xs.foldl min x

/-- `series.max()` over a non-empty list. -/
def listMax : List ℚ → ℚ
  | [] => 0
  | x :: xs => xs.foldl max x

/-- `SuggestionEngine._analyze_energy_patterns`. -/
def analyze_energy_patterns (df : List TRow) (building_id : String) :
    List Sugg :=
  let energy := (df.filter (fun r => r.metric = "energy")).map TRow.value
  if energy.isEmpty then []
  else
    let avg := listMean energy
    let mn := listMin energy
    let ratio := avg / max mn (1/1000000)
    let ratioBucket := round_step ratio (1/5)
    if avg > mn * (3/2) then
      [make_suggestion building_id "hvac_schedule"
        ("High base load detected (" ++ formatQ1 avg ++ " kWh avg vs "
          ++ formatQ1 mn
          ++ " kWh min). Consider night setback or improved controls.")
        ((avg - mn) * 8) "low"
        [("schedule", .pstr "night_setback")]
        [("avg_energy_kwh", .pfloat (round_step avg 1)),
         ("min_energy_kwh", .pfloat (round_step mn 1)),
         ("base_load_ratio", .pfloat (round_step ratio (1/20))),
         ("base_load_ratio_bucket", .pfloat ratioBucket)]
        2]
    else []

/-- `SuggestionEngine._analyze_temperature_patterns`. -/
def analyze_temperature_patterns (df : List TRow) (building_id : String) :
    List Sugg :=
  let temp := (df.filter (fun r => r.metric = "temperature")).map TRow.value
  if temp.isEmpty then []
  else
    let avg := listMean temp
    if avg < 22 then
      let avgBucket := round_step avg (1/2)
      let target := round_step (min 24 (max (45/2) (avg + 3/2))) (1/2)
      let targetBand := formatQ1 target
      let savings := max 0 ((target - avg) * (3/5) * 24)
      [make_suggestion building_id "setpoint_change"
        ("Average temperature is " ++ formatQ1 avg ++ "°C. Raising setpoint to "
          ++ formatQ1 target
          ++ "°C could save energy while maintaining comfort.")
        savings "low"
        [("setpoint_c_target", .pfloat target)]
        [("avg_temp_bucket", .pfloat avgBucket),
         ("target_setpoint_band", .pstr targetBand)]
        2]
    else []

/-- `SuggestionEngine._analyze_occupancy_patterns`. -/
def analyze_occupancy_patterns (df : List TRow) (building_id : String) :
    List Sugg :=
  let occ := (df.filter (fun r => r.metric = "occupancy")).map TRow.value
  if occ.isEmpty then []
  else
    let lowOcc := occ.filter (fun v => v < 1/5)
    let lowRatio : ℚ := (lowOcc.length : ℚ) / (max occ.length 1 : ℕ)
    let lowBucket := round_step lowRatio (1/10)
    if (lowOcc.length : ℚ) > (occ.length : ℚ) * (3/10) then
      [make_suggestion building_id "hvac_schedule"
        "Significant low-occupancy periods detected. Consider reducing HVAC intensity during these times."
        15 "medium"
        [("schedule", .pstr "occupancy_based")]
        [("low_occ_ratio", .pfloat (round_step lowRatio (1/50))),
         ("low_occ_ratio_bucket", .pfloat lowBucket)]
        2]
    else []

/-- `SuggestionEngine._rule_based_suggestions`: the fixed pre-cool schedule
and the CO₂-threshold fallback, always appended. -/
def rule_based_suggestions (building_id : String) : List Sugg :=
  [make_suggestion building_id "hvac_schedule"
    "Pre-cool office zones by 1°C between 7:00–8:00 to reduce peak load."
    (25/2) "low"
    [("schedule", .pstr "pre_cool"), ("delta_c", .pfloat 1),
     ("window", .pstr "07:00-08:00")]
    [("rule_band", .pstr "precool")]
    2,
   make_suggestion building_id "ventilation"
    "Increase CO₂-based fresh air intake threshold from 800 ppm to 900 ppm in low-occupancy periods."
    (26/5) "medium"
    [("co2_threshold_ppm", .pint 900)]
    [("rule_band", .pstr "co2_900")]
    2]

/-- The dedupe key the output stage uses:
`str(s.get("dedupe_key") or s.get("id") or "")`.  Engine-built suggestions
always carry a non-empty `dedupe_key` and a non-empty formatted `id`
string, so the `id` fallback is reachable only with an empty `dedupe_key`
and the final `continue` (both empty) is dead code for values of `Sugg`. -/
def effKey (s : Sugg) : Key ⊕ SuggId :=
  if s.dedupe_key.isEmptyStr then .inr s.id else .inl s.dedupe_key

/-- One step of the dedupe dict build: keep the incumbent unless the new
candidate's `estimated_savings_kwh` is strictly higher. -/
def dedupeStep (m : List ((Key ⊕ SuggId) × Sugg)) (s : Sugg) :
    List ((Key ⊕ SuggId) × Sugg) :=
  let k := effKey s
  match alLookup m k with
  | none => alInsert m k s
  | some old =>
      if s.estimated_savings_kwh > old.estimated_savings_kwh
      then alInsert m k s else m

/-- Stable descending insertion by `estimated_savings_kwh` (Python
`list.sort(key=..., reverse=True)` is a stable descending sort). -/
def insertDesc (s : Sugg) : List Sugg → List Sugg
  | [] => [s]
  | t :: ts =>
      if t.estimated_savings_kwh > s.estimated_savings_kwh
      then t :: insertDesc s ts
      else s :: t :: ts

/-- Stable sort by `estimated_savings_kwh` descending. -/
def sortDesc : List Sugg → List Sugg
  | [] => []
  | s :: ss => insertDesc s (sortDesc ss)

/-- The output stage of `generate_suggestions` (lines 46–59): dedupe by
key keeping the higher-savings candidate, sort by savings descending,
return the top 5. -/
def postProcess (cs : List Sugg) : List Sugg :=
  let dd := cs.foldl dedupeStep []
  (sortDesc (dd.map Prod.snd)).take 5

/-- `SuggestionEngine.generate_suggestions`.  The telemetry fetch
(`timeseries_service.get_metrics` over the last 48 h) is the external
collaborator; `fetch` is its outcome: `.error` models the `try` block
raising (analyzers contribute nothing), `.ok df` the returned frame.  The
rule-based fallbacks are appended outside the `try`. -/
def generate_suggestions (building_id : String)
    (fetch : Except Unit (List TRow)) : List Sugg :=
  let analyzed :=
    match fetch with
    | .error _ => []
    | .ok df =>
        if df.isEmpty then []
        else
          analyze_energy_patterns df building_id
            ++ analyze_temperature_patterns df building_id
            ++ analyze_occupancy_patterns df building_id
  postProcess (analyzed ++ rule_based_suggestions building_id)

end SuggestionEngine

namespace Anomaly

/-- One row of the feature frame fed to the detectors: the timestamp index
plus the seven `FEATURE_COLS` (raw metrics and cyclical encodings). -/
structure FVec where
  ts : String
  energy : ℚ
  temperature : ℚ
  humidity : ℚ
  hour_sin : ℚ
  hour_cos : ℚ
  dow_sin : ℚ
  dow_cos : ℚ
deriving DecidableEq, Repr

/-- A lazily loaded model artifact (`_load_autoencoder` / `_load_iforest`):
`none` when the pickle/H5 file is missing or corrupt (the load-time
`except Exception: return None`), otherwise an opaque batch scoring
function (the spec treats model artifacts as opaque scoring functions);
a `.error` result models the scoring call itself raising at runtime. -/
abbrev Detector := Option (List FVec → Except String (List ℚ))

/-- The optional feature scaler of `isolation_forest.py`, same reading. -/
abbrev Scaler := Option (List FVec → Except String (List FVec))

/-- `autoencoder_reconstruction_error`: empty frame → empty series; model
unavailable → constant-zero series; otherwise `model.predict` composed
with the row-wise mean-squared reconstruction error (opaque `f`), whose
runtime exception propagates (no `try` around it). -/
def autoencoder_reconstruction_error (model : Detector) (rows : List FVec) :
    Except String (List ℚ) :=
  if rows.isEmpty then .ok []
  else
    match model with
    | none => .ok (rows.map (fun _ => 0))
    | some f => f rows

/-- `isolation_forest_scores`: empty frame → empty series; model
unavailable → constant-zero series; else the scaler is applied when it
loads and transforms without raising (its failure is caught: `except
Exception: pass`), and the negated `score_samples` output is returned —
a runtime exception of `score_samples` itself propagates. -/
def isolation_forest_scores (model : Detector) (scaler : Scaler)
    (rows : List FVec) : Except String (List ℚ) :=
  if rows.isEmpty then .ok []
  else
    match model with
    | none => .ok (rows.map (fun _ => 0))
    | some f =>
        let x :=
          match scaler with
          | none => rows
          | some g =>
              match g rows with
              | .ok y => y
              | .error _ => rows
        match f x with
        | .ok raw => .ok (raw.map (fun r => -r))
        | .error e => .error e

/-- `_normalize` of `anomaly_routes.py`: min-max scaling over the batch,
all zeros when `max - min < 1e-8`. -/
def normalize (s : List ℚ) : List ℚ :=
  if s.isEmpty then s
  else
    let lo := SuggestionEngine.listMin s
    let hi := SuggestionEngine.listMax s
    if hi - lo < 1/100000000 then s.map (fun _ => 0)
    else s.map (fun x => (x - lo) / (hi - lo))

/-- Ascending insertion of a value into a sorted list. -/
def insertAsc (x : ℚ) : List ℚ → List ℚ
  | [] => [x]
  | y :: ys => if x ≤ y then x :: y :: ys else y :: insertAsc x ys

/-- Ascending sort (the sort `np.quantile` performs internally; insertion
sort here, the sorted output is what matters). -/
def sortAsc : List ℚ → List ℚ
  | [] => []
  | x :: xs => insertAsc x (sortAsc xs)

/-- `np.quantile(xs, 0.9)` with the default linear interpolation, on a
non-empty vector: index `0.9 * (n - 1)` into the ascending sort. -/
def quantile90 (xs : List ℚ) : ℚ :=
  let sorted := sortAsc xs
  let n := xs.length
  if n = 0 then 0
  else
    let pos : ℚ := (9/10) * ((n : ℚ) - 1)
    let i : ℕ := (⌊pos⌋).toNat
    let frac : ℚ := pos - (i : ℚ)
    let a := sorted.getD i 0
    let b := sorted.getD (i + 1) a
    a + frac * (b - a)

/-- `FEATURE_COLS` of `anomaly_routes.py`. -/
def FEATURE_COLS : List String :=
  ["energy", "temperature", "humidity", "hour_sin", "hour_cos",
   "dow_sin", "dow_cos"]

/-- Column projection of a feature row. -/
def featureValue (r : FVec) (c : String) : ℚ :=
  if c = "energy" then r.energy
  else if c = "temperature" then r.temperature
  else if c = "humidity" then r.humidity
  else if c = "hour_sin" then r.hour_sin
  else if c = "hour_cos" then r.hour_cos
  else if c = "dow_sin" then r.dow_sin
  else if c = "dow_cos" then r.dow_cos
  else r.energy

/-- `value_col = query.metric if query.metric in df.columns else "energy"`. -/
def valueCol (metric : String) : String :=
  if metric ∈ FEATURE_COLS then metric else "energy"

/-- An `AnomalyPoint` of the `/detect` response. -/
structure AnomalyPoint where
  timestamp : String
  metric : String
  value : ℚ
  score : ℚ
  is_anomaly : Bool
deriving DecidableEq, Repr

/-- `detect_anomalies` of `anomaly_routes.py`, from the already-built
feature frame (`_load_feature_frame` is the external telemetry
collaborator): run both detectors, min-max normalize each score vector,
combine with weights 0.5/0.5, flag the rows at or above the 90th
percentile of the combined scores.  A detector exception propagates
(aborts the request). -/
def detect_anomalies (ae ifm : Detector) (scaler : Scaler) (metric : String)
    (rows : List FVec) : Except String (List AnomalyPoint) :=
  if rows.isEmpty then .ok []
  else
    match autoencoder_reconstruction_error ae rows with
    | .error e => .error e
    | .ok aeS =>
        match isolation_forest_scores ifm scaler rows with
        | .error e => .error e
        | .ok ifS =>
            let aeN := normalize aeS
            let ifN := normalize ifS
            let combined := List.zipWith (fun a b => (1/2) * a + (1/2) * b) aeN ifN
            let threshold := quantile90 combined
            let col := valueCol metric
            .ok ((rows.zip combined).map (fun rc =>
              { timestamp := rc.1.ts
                metric := metric
                value := featureValue rc.1 col
                score := rc.2
                is_anomaly := decide (rc.2 ≥ threshold) }))

/-- `_normalize` of `dashboard_routes.py`: identical min-max scaling but
guarded by `np.isclose(hi, lo)`, i.e. `|hi - lo| <= 1e-8 + 1e-5 * |lo|`. -/
def dashNormalize (s : List ℚ) : List ℚ :=
  if s.isEmpty then s
  else
    let lo := SuggestionEngine.listMin s
    let hi := SuggestionEngine.listMax s
    if |hi - lo| ≤ 1/100000000 + (1/100000) * |lo| then s.map (fun _ => 0)
    else s.map (fun x => (x - lo) / (hi - lo))

/-- A row of the dashboard anomaly frame (score columns only; the carried
telemetry columns are immaterial here). -/
structure DashRow where
  ts : String
  score : ℚ
  is_anomaly : Bool
deriving DecidableEq, Repr

/-- The scoring tail of `_build_anomalies` in `dashboard_routes.py` (from
the already-prepared feature frame): same ensemble combination, then the
hardcoded fixed threshold `score >= 0.85`. -/
def build_anomalies (ae ifm : Detector) (scaler : Scaler)
    (rows : List FVec) : Except String (List DashRow) :=
  if rows.isEmpty then .ok []
  else
    match autoencoder_reconstruction_error ae rows with
    | .error e => .error e
    | .ok aeS =>
        match isolation_forest_scores ifm scaler rows with
        | .error e => .error e
        | .ok ifS =>
            let combined :=
              List.zipWith (fun a b => (1/2) * a + (1/2) * b)
                (dashNormalize aeS) (dashNormalize ifS)
            .ok ((rows.zip combined).map (fun rc =>
              { ts := rc.1.ts
                score := rc.2
                is_anomaly := decide (rc.2 ≥ (17 : ℚ)/20) }))

end Anomaly

namespace SuggestionEngine

/-- Invariant of the dedupe-dict build of `postProcess`, relating the
accumulated association list `m` to the candidates `seen` so far: keys are
unique, every entry holds a seen candidate carrying that key which
dominates (by `estimated_savings_kwh`) all seen candidates with the same
key, and every seen candidate's key is represented. -/
def GoodMap (m : List ((Key ⊕ SuggId) × Sugg)) (seen : List Sugg) : Prop :=
  (m.map Prod.fst).Nodup
  ∧ (∀ kv ∈ m, effKey kv.2 = kv.1 ∧ kv.2 ∈ seen
      ∧ ∀ t ∈ seen, effKey t = kv.1 →
          t.estimated_savings_kwh ≤ kv.2.estimated_savings_kwh)
  ∧ (∀ t ∈ seen, effKey t ∈ m.map Prod.fst)

end SuggestionEngine

theorem mem_setAdd {α : Type} [DecidableEq α] {l : List α} {x y : α} :
    x ∈ setAdd l y ↔ x = y ∨ x ∈ l := by
  unfold setAdd
  split <;> rename_i h
  · constructor
    · exact fun hx => Or.inr hx
    · rintro (rfl | hx) <;> [exact h; exact hx]
  · simp [List.mem_cons]

theorem mem_setDiscard {α : Type} [DecidableEq α] {l : List α} {x y : α} :
    x ∈ setDiscard l y ↔ x ∈ l ∧ x ≠ y := by
  simp [setDiscard, List.mem_filter]

theorem mem_keys_alInsert {α β : Type} [DecidableEq α]
    {m : List (α × β)} {k x : α} {v : β} :
    x ∈ (alInsert m k v).map Prod.fst ↔ x = k ∨ x ∈ m.map Prod.fst := by
  induction m with
  | nil => simp [alInsert]
  | cons p rest ih =>
      obtain ⟨k₁, v₁⟩ := p
      by_cases h : k₁ = k
      · subst h
        simp [alInsert]
      · simp only [alInsert, if_neg h, List.map_cons, List.mem_cons, ih]
        tauto

theorem mem_keys_alErase {α β : Type} [DecidableEq α]
    {m : List (α × β)} {k x : α} :
    x ∈ (alErase m k).map Prod.fst ↔ x ∈ m.map Prod.fst ∧ x ≠ k := by
  simp only [alErase, List.mem_map, List.mem_filter, decide_eq_true_eq, ne_eq]
  constructor
  · rintro ⟨p, ⟨hp, hne⟩, rfl⟩
    exact ⟨⟨p, hp, rfl⟩, hne⟩
  · rintro ⟨⟨p, hp, rfl⟩, hne⟩
    exact ⟨p, ⟨hp, hne⟩, rfl⟩

namespace ActionStateService

theorem extract_fst_not_empty (s : SuggestionPayload) :
    (extract_similarity s).1.isEmptyStr = false := by
  dsimp only [extract_similarity]
  by_cases h : (keyOrEmpty s.dedupe_key).isEmptyStr = true
  · rw [if_pos h]; rfl
  · rw [if_neg h]
    exact Bool.eq_false_iff.mpr h

theorem apply_suggestion_ok (building_id now : String) (st : BuildingState)
    (s : SuggestionPayload) (h₁ : ¬building_id = "") (h₂ : ¬s.id = "") :
    apply_suggestion building_id now st s =
      .ok
        ({ id := s.id
           type := s.type
           description := s.description
           estimated_savings_kwh := s.estimated_savings_kwh
           comfort_risk := if s.comfort_risk = "" then "low" else s.comfort_risk
           applied_at := now
           params := paramsOf s
           dedupe_key := (extract_similarity s).1
           signature := (extract_similarity s).2 },
         { applied := alInsert st.applied s.id
             { id := s.id
               type := s.type
               description := s.description
               estimated_savings_kwh := s.estimated_savings_kwh
               comfort_risk := if s.comfort_risk = "" then "low" else s.comfort_risk
               applied_at := now
               params := paramsOf s
               dedupe_key := (extract_similarity s).1
               signature := (extract_similarity s).2 }
           dismissed_ids := setDiscard st.dismissed_ids s.id
           dismissed_keys := setDiscard st.dismissed_keys (extract_similarity s).1
           version := st.version + 1 }) := by
  unfold apply_suggestion
  rw [if_neg h₁, if_neg h₂]
  simp only [extract_fst_not_empty, Bool.false_eq_true, if_false]

theorem dismiss_suggestion_ok (building_id suggestion_id : String)
    (p : Option SuggestionPayload) (st : BuildingState)
    (h₁ : ¬building_id = "") (h₂ : ¬suggestion_id = "") :
    dismiss_suggestion building_id suggestion_id p st =
      .ok
        { applied := alErase st.applied suggestion_id
          dismissed_ids := setAdd st.dismissed_ids suggestion_id
          dismissed_keys :=
            match p with
            | none => st.dismissed_keys
            | some payload =>
                setAdd st.dismissed_keys (extract_similarity payload).1
          version := st.version + 1 } := by
  unfold dismiss_suggestion
  rw [if_neg h₁, if_neg h₂]
  cases p with
  | none => rfl
  | some payload =>
      simp only [extract_fst_not_empty, Bool.false_eq_true, if_false]

theorem apply_suggestion_err (building_id now : String) (st : BuildingState)
    (s : SuggestionPayload) (h : building_id = "" ∨ s.id = "") :
    ∃ e, apply_suggestion building_id now st s = .error e := by
  unfold apply_suggestion
  by_cases h₁ : building_id = ""
  · rw [if_pos h₁]; exact ⟨_, rfl⟩
  · rcases h with h | h₂
    · exact absurd h h₁
    · rw [if_neg h₁, if_pos h₂]; exact ⟨_, rfl⟩

theorem dismiss_suggestion_err (building_id suggestion_id : String)
    (p : Option SuggestionPayload) (st : BuildingState)
    (h : building_id = "" ∨ suggestion_id = "") :
    ∃ e, dismiss_suggestion building_id suggestion_id p st = .error e := by
  unfold dismiss_suggestion
  by_cases h₁ : building_id = ""
  · rw [if_pos h₁]; exact ⟨_, rfl⟩
  · rcases h with h | h₂
    · exact absurd h h₁
    · rw [if_neg h₁, if_pos h₂]; exact ⟨_, rfl⟩

end ActionStateService

namespace ActionStateService

theorem runOp_apply_ok (b now : String) (st : BuildingState)
    (s : SuggestionPayload) (h₁ : ¬b = "") (h₂ : ¬s.id = "") :
    runOp b st (.applyOp now s) =
      { applied := alInsert st.applied s.id
          { id := s.id
            type := s.type
            description := s.description
            estimated_savings_kwh := s.estimated_savings_kwh
            comfort_risk := if s.comfort_risk = "" then "low" else s.comfort_risk
            applied_at := now
            params := paramsOf s
            dedupe_key := (extract_similarity s).1
            signature := (extract_similarity s).2 }
        dismissed_ids := setDiscard st.dismissed_ids s.id
        dismissed_keys := setDiscard st.dismissed_keys (extract_similarity s).1
        version := st.version + 1 } := by
  simp only [runOp, apply_suggestion_ok b now st s h₁ h₂]

theorem runOp_apply_err (b now : String) (st : BuildingState)
    (s : SuggestionPayload) (h : b = "" ∨ s.id = "") :
    runOp b st (.applyOp now s) = st := by
  obtain ⟨e, he⟩ := apply_suggestion_err b now st s h
  simp only [runOp, he]

theorem runOp_dismiss_ok (b sid : String) (p : Option SuggestionPayload)
    (st : BuildingState) (h₁ : ¬b = "") (h₂ : ¬sid = "") :
    runOp b st (.dismissOp sid p) =
      { applied := alErase st.applied sid
        dismissed_ids := setAdd st.dismissed_ids sid
        dismissed_keys :=
          match p with
          | none => st.dismissed_keys
          | some payload => setAdd st.dismissed_keys (extract_similarity payload).1
        version := st.version + 1 } := by
  simp only [runOp, dismiss_suggestion_ok b sid p st h₁ h₂]

theorem runOp_dismiss_err (b sid : String) (p : Option SuggestionPayload)
    (st : BuildingState) (h : b = "" ∨ sid = "") :
    runOp b st (.dismissOp sid p) = st := by
  obtain ⟨e, he⟩ := dismiss_suggestion_err b sid p st h
  simp only [runOp, he]

theorem runOp_version_step (b : String) (st : BuildingState) (op : Op) :
    (op.valid b → (runOp b st op).version = st.version + 1)
    ∧ (¬op.valid b → runOp b st op = st) := by
  cases op with
  | applyOp now s =>
      constructor
      · rintro ⟨h₁, h₂⟩
        rw [runOp_apply_ok b now st s h₁ h₂]
      · intro h
        by_cases h₁ : b = ""
        · exact runOp_apply_err b now st s (Or.inl h₁)
        · by_cases h₂ : s.id = ""
          · exact runOp_apply_err b now st s (Or.inr h₂)
          · exact absurd ⟨h₁, h₂⟩ h
  | dismissOp sid p =>
      constructor
      · rintro ⟨h₁, h₂⟩
        rw [runOp_dismiss_ok b sid p st h₁ h₂]
      · intro h
        by_cases h₁ : b = ""
        · exact runOp_dismiss_err b sid p st (Or.inl h₁)
        · by_cases h₂ : sid = ""
          · exact runOp_dismiss_err b sid p st (Or.inr h₂)
          · exact absurd ⟨h₁, h₂⟩ h

theorem inv_runOp (b : String) (st : BuildingState) (op : Op)
    (h : ∀ id, ¬(id ∈ st.applied.map Prod.fst ∧ id ∈ st.dismissed_ids)) :
    ∀ id, ¬(id ∈ (runOp b st op).applied.map Prod.fst
        ∧ id ∈ (runOp b st op).dismissed_ids) := by
  by_cases hv : op.valid b
  · cases op with
    | applyOp now s =>
        obtain ⟨h₁, h₂⟩ := hv
        rw [runOp_apply_ok b now st s h₁ h₂]
        rintro id ⟨hk, hd⟩
        rw [mem_setDiscard] at hd
        rw [mem_keys_alInsert] at hk
        rcases hk with rfl | hk
        · exact hd.2 rfl
        · exact h id ⟨hk, hd.1⟩
    | dismissOp sid p =>
        obtain ⟨h₁, h₂⟩ := hv
        rw [runOp_dismiss_ok b sid p st h₁ h₂]
        rintro id ⟨hk, hd⟩
        rw [mem_keys_alErase] at hk
        rw [mem_setAdd] at hd
        rcases hd with rfl | hd
        · exact hk.2 rfl
        · exact h id ⟨hk.1, hd⟩
  · rw [(runOp_version_step b st op).2 hv]
    exact h

theorem inv_runOps (b : String) (ops : List Op) :
    ∀ id, ¬(id ∈ (runOps b ops).applied.map Prod.fst
        ∧ id ∈ (runOps b ops).dismissed_ids) := by
  suffices H : ∀ (l : List Op) (st : BuildingState),
      (∀ id, ¬(id ∈ st.applied.map Prod.fst ∧ id ∈ st.dismissed_ids)) →
      ∀ id, ¬(id ∈ (l.foldl (runOp b) st).applied.map Prod.fst
          ∧ id ∈ (l.foldl (runOp b) st).dismissed_ids) by
    refine H ops init ?_
    rintro id ⟨hk, _⟩
    simp [init] at hk
  intro l
  induction l with
  | nil => intro st h; exact h
  | cons op rest ih =>
      intro st h
      exact ih (runOp b st op) (inv_runOp b st op h)

/-- **C1**: after every sequence of apply/dismiss operations on a building
the registry invariant holds: no suggestion id is simultaneously a key of
`applied` and a member of `dismissed_ids`; a successful apply removes the
id from `dismissed_ids` (and puts it in `applied`), a successful dismiss
removes it from `applied` (and puts it in `dismissed_ids`); `version`
starts at 0, increases by exactly 1 on every successful apply or dismiss,
never decreases; and apply–dismiss–apply on the same id leaves the id
applied with `version` advanced by exactly 3. -/
theorem C1_registry_invariant :
    init.version = 0
    ∧ (∀ (b : String) (ops : List Op) (id : String),
        ¬(id ∈ (runOps b ops).applied.map Prod.fst
            ∧ id ∈ (runOps b ops).dismissed_ids))
    ∧ (∀ (b : String) (st : BuildingState) (op : Op),
        (op.valid b → (runOp b st op).version = st.version + 1)
        ∧ (¬op.valid b → runOp b st op = st)
        ∧ st.version ≤ (runOp b st op).version)
    ∧ (∀ (b now : String) (st : BuildingState) (s : SuggestionPayload),
        ¬b = "" → ¬s.id = "" →
        s.id ∉ (runOp b st (.applyOp now s)).dismissed_ids
          ∧ s.id ∈ (runOp b st (.applyOp now s)).applied.map Prod.fst)
    ∧ (∀ (b sid : String) (p : Option SuggestionPayload) (st : BuildingState),
        ¬b = "" → ¬sid = "" →
        sid ∉ (runOp b st (.dismissOp sid p)).applied.map Prod.fst
          ∧ sid ∈ (runOp b st (.dismissOp sid p)).dismissed_ids)
    ∧ (∀ (b now₁ now₂ : String) (st : BuildingState) (s : SuggestionPayload)
        (p : Option SuggestionPayload),
        ¬b = "" → ¬s.id = "" →
        (runOp b (runOp b (runOp b st (.applyOp now₁ s)) (.dismissOp s.id p))
            (.applyOp now₂ s)).version = st.version + 3
        ∧ s.id ∈ (runOp b (runOp b (runOp b st (.applyOp now₁ s))
              (.dismissOp s.id p)) (.applyOp now₂ s)).applied.map Prod.fst
        ∧ s.id ∉ (runOp b (runOp b (runOp b st (.applyOp now₁ s))
              (.dismissOp s.id p)) (.applyOp now₂ s)).dismissed_ids) := by
  refine ⟨rfl, inv_runOps, ?_, ?_, ?_, ?_⟩
  · intro b st op
    obtain ⟨hok, herr⟩ := runOp_version_step b st op
    refine ⟨hok, herr, ?_⟩
    by_cases hv : op.valid b
    · rw [hok hv]; omega
    · rw [herr hv]
  · intro b now st s h₁ h₂
    rw [runOp_apply_ok b now st s h₁ h₂]
    constructor
    · intro hmem
      exact (mem_setDiscard.mp hmem).2 rfl
    · exact mem_keys_alInsert.mpr (Or.inl rfl)
  · intro b sid p st h₁ h₂
    rw [runOp_dismiss_ok b sid p st h₁ h₂]
    constructor
    · intro hmem
      exact (mem_keys_alErase.mp hmem).2 rfl
    · exact mem_setAdd.mpr (Or.inl rfl)
  · intro b now₁ now₂ st s p h₁ h₂
    rw [runOp_apply_ok b now₁ st s h₁ h₂,
        runOp_dismiss_ok b s.id p _ h₁ h₂,
        runOp_apply_ok b now₂ _ s h₁ h₂]
    refine ⟨rfl, mem_keys_alInsert.mpr (Or.inl rfl), ?_⟩
    intro hmem
    exact (mem_setDiscard.mp hmem).2 rfl

/-- Closed instantiation of `C1_registry_invariant` at a concrete history. -/
theorem C1_registry_invariant_witness :
    ¬("s1" ∈ (runOps "b1"
        [.applyOp "t1" ⟨"s1", "hvac_schedule", "d", 1, "low", none, none, none⟩,
         .dismissOp "s1" none]).applied.map Prod.fst
      ∧ "s1" ∈ (runOps "b1"
        [.applyOp "t1" ⟨"s1", "hvac_schedule", "d", 1, "low", none, none, none⟩,
         .dismissOp "s1" none]).dismissed_ids)
    ∧ (runOp "b1" init
        (.applyOp "t1" ⟨"s1", "hvac_schedule", "d", 1, "low", none, none, none⟩)).version
        = init.version + 1
    ∧ (runOp "b1" (runOp "b1" (runOp "b1" init
        (.applyOp "t1" ⟨"s1", "hvac_schedule", "d", 1, "low", none, none, none⟩))
          (.dismissOp "s1" none))
        (.applyOp "t2" ⟨"s1", "hvac_schedule", "d", 1, "low", none, none, none⟩)).version
        = init.version + 3 := by
  refine ⟨C1_registry_invariant.2.1 "b1" _ "s1", ?_, ?_⟩
  · exact (C1_registry_invariant.2.2.1 "b1" init _).1 ⟨by decide, by decide⟩
  · exact ((C1_registry_invariant.2.2.2.2.2 "b1" "t1" "t2" init
      ⟨"s1", "hvac_schedule", "d", 1, "low", none, none, none⟩ none
      (by decide) (by decide)).1)

/-- **C9**: `apply_suggestion` fails (with a `ValidationError`) exactly
when `building_id` or the suggestion's `id` is empty, `dismiss_suggestion`
exactly when `building_id` or `suggestion_id` is empty; these are the only
errors the mutations surface, and a failing call leaves the building's
registry completely unchanged. -/
theorem C9_validation_errors :
    ∀ (b now sid : String) (st : BuildingState) (s : SuggestionPayload)
      (p : Option SuggestionPayload),
      ((∃ e, apply_suggestion b now st s = .error e) ↔ (b = "" ∨ s.id = ""))
      ∧ ((∃ e, dismiss_suggestion b sid p st = .error e) ↔ (b = "" ∨ sid = ""))
      ∧ (∀ e, apply_suggestion b now st s = .error e →
          runOp b st (.applyOp now s) = st)
      ∧ (∀ e, dismiss_suggestion b sid p st = .error e →
          runOp b st (.dismissOp sid p) = st) := by
  intro b now sid st s p
  refine ⟨⟨?_, apply_suggestion_err b now st s⟩,
          ⟨?_, dismiss_suggestion_err b sid p st⟩, ?_, ?_⟩
  · rintro ⟨e, he⟩
    by_cases h₁ : b = ""
    · exact Or.inl h₁
    · by_cases h₂ : s.id = ""
      · exact Or.inr h₂
      · rw [apply_suggestion_ok b now st s h₁ h₂] at he
        exact absurd he (by simp)
  · rintro ⟨e, he⟩
    by_cases h₁ : b = ""
    · exact Or.inl h₁
    · by_cases h₂ : sid = ""
      · exact Or.inr h₂
      · rw [dismiss_suggestion_ok b sid p st h₁ h₂] at he
        exact absurd he (by simp)
  · intro e he
    simp only [runOp, he]
  · intro e he
    simp only [runOp, he]

/-- Closed instantiation of `C9_validation_errors`: an empty suggestion id
is rejected, a fully identified mutation is not. -/
theorem C9_validation_errors_witness :
    ((∃ e, apply_suggestion "b1" "t1" init
        ⟨"", "hvac_schedule", "d", 1, "low", none, none, none⟩ = .error e)
      ↔ ("b1" = "" ∨ "" = ""))
    ∧ ((∃ e, dismiss_suggestion "b1" "s1" none init = .error e)
      ↔ ("b1" = "" ∨ "s1" = "")) :=
  ⟨(C9_validation_errors "b1" "t1" "s1" init
      ⟨"", "hvac_schedule", "d", 1, "low", none, none, none⟩ none).1,
   (C9_validation_errors "b1" "t1" "s1" init
      ⟨"", "hvac_schedule", "d", 1, "low", none, none, none⟩ none).2.1⟩

end ActionStateService

namespace ActionStateService

theorem apply_ok_ids {b now : String} {st : BuildingState}
    {s : SuggestionPayload} {a : AppliedAction} {st' : BuildingState}
    (h : apply_suggestion b now st s = .ok (a, st')) :
    ¬b = "" ∧ ¬s.id = "" := by
  by_cases h₁ : b = ""
  · obtain ⟨e, he⟩ := apply_suggestion_err b now st s (Or.inl h₁)
    rw [he] at h
    exact absurd h (by simp)
  · by_cases h₂ : s.id = ""
    · obtain ⟨e, he⟩ := apply_suggestion_err b now st s (Or.inr h₂)
      rw [he] at h
      exact absurd h (by simp)
    · exact ⟨h₁, h₂⟩

theorem dismiss_ok_ids {b sid : String} {p : Option SuggestionPayload}
    {st st' : BuildingState}
    (h : dismiss_suggestion b sid p st = .ok st') :
    ¬b = "" ∧ ¬sid = "" := by
  by_cases h₁ : b = ""
  · obtain ⟨e, he⟩ := dismiss_suggestion_err b sid p st (Or.inl h₁)
    rw [he] at h
    exact absurd h (by simp)
  · by_cases h₂ : sid = ""
    · obtain ⟨e, he⟩ := dismiss_suggestion_err b sid p st (Or.inr h₂)
      rw [he] at h
      exact absurd h (by simp)
    · exact ⟨h₁, h₂⟩

theorem suppress_of_dismissed_key (st : BuildingState)
    (s : SuggestionPayload)
    (h : (extract_similarity s).1 ∈ st.dismissed_keys) :
    should_suppress_suggestion st s = true := by
  unfold should_suppress_suggestion
  refine Bool.or_eq_true _ _ |>.mpr (Or.inr ?_)
  rw [Bool.and_eq_true]
  refine ⟨?_, ?_⟩
  · rw [Bool.not_eq_true']
    exact extract_fst_not_empty s
  · exact Bool.or_eq_true _ _ |>.mpr (Or.inl (by simpa using h))

/-- **C2**: `should_suppress_suggestion` is true exactly when the
suggestion's id is an applied key, or its id is dismissed, or its (derived)
dedupe key matches some applied action's dedupe key, or that key is in the
dismissed dedupe keys — on registries in which the empty id never occurs
(the validated mutations can never insert it).  It is read-only by type:
it returns only a `Bool`, so no registry field and no version changes.
Consequently, after dismissing suggestion A together with its payload,
any payload B whose dedupe key derives equal to A's is suppressed. -/
theorem C2_should_suppress :
    (∀ (st : BuildingState) (s : SuggestionPayload),
      "" ∉ st.applied.map Prod.fst → "" ∉ st.dismissed_ids →
      (should_suppress_suggestion st s = true ↔
        (s.id ∈ st.applied.map Prod.fst
          ∨ s.id ∈ st.dismissed_ids
          ∨ (∃ a ∈ st.applied.map Prod.snd,
              a.dedupe_key = (extract_similarity s).1)
          ∨ (extract_similarity s).1 ∈ st.dismissed_keys)))
    ∧ (∀ (b sid : String) (st st' : BuildingState) (A B : SuggestionPayload),
        (extract_similarity A).1 = (extract_similarity B).1 →
        dismiss_suggestion b sid (some A) st = .ok st' →
        should_suppress_suggestion st' B = true) := by
  constructor
  · intro st s h₁ h₂
    unfold should_suppress_suggestion
    simp only [Bool.or_eq_true, Bool.and_eq_true, decide_eq_true_eq,
      Bool.not_eq_true', extract_fst_not_empty s, true_and,
      List.any_eq_true, List.mem_map]
    constructor
    · rintro ((⟨hne, hmem⟩ | ⟨hne, hmem⟩) | hmem | ⟨x, hx, hxk⟩)
      · exact Or.inl hmem
      · exact Or.inr (Or.inl hmem)
      · exact Or.inr (Or.inr (Or.inr hmem))
      · exact Or.inr (Or.inr (Or.inl ⟨x.2, ⟨x, hx, rfl⟩, hxk⟩))
    · rintro (hmem | hmem | ⟨a, ⟨p, hp, rfl⟩, hak⟩ | hmem)
      · refine Or.inl (Or.inl ⟨?_, hmem⟩)
        intro he
        obtain ⟨p, hp, hps⟩ := hmem
        exact h₁ (List.mem_map.mpr ⟨p, hp, hps.trans he⟩)
      · refine Or.inl (Or.inr ⟨fun he => h₂ (he ▸ hmem), hmem⟩)
      · exact Or.inr (Or.inr ⟨p, hp, hak⟩)
      · exact Or.inr (Or.inl hmem)
  · intro b sid st st' A B hk hdis
    obtain ⟨h₁, h₂⟩ := dismiss_ok_ids hdis
    rw [dismiss_suggestion_ok b sid (some A) st h₁ h₂] at hdis
    have hst : st' = { applied := alErase st.applied sid
                       dismissed_ids := setAdd st.dismissed_ids sid
                       dismissed_keys :=
                         setAdd st.dismissed_keys (extract_similarity A).1
                       version := st.version + 1 } := by
      cases hdis
      rfl
    apply suppress_of_dismissed_key
    rw [hst, ← hk]
    exact mem_setAdd.mpr (Or.inl rfl)

/-- Closed instantiation of `C2_should_suppress`: on the empty registry
nothing is suppressed, and dismissing payload A (dedupe key `"K"`) makes a
different payload B with the same key suppressed. -/
theorem C2_should_suppress_witness :
    (should_suppress_suggestion init
        ⟨"s1", "hvac_schedule", "d", 1, "low", none, none, some (.kstr "K")⟩ = true ↔
      ("s1" ∈ init.applied.map Prod.fst
        ∨ "s1" ∈ init.dismissed_ids
        ∨ (∃ a ∈ init.applied.map Prod.snd,
            a.dedupe_key = (extract_similarity
              ⟨"s1", "hvac_schedule", "d", 1, "low", none, none, some (.kstr "K")⟩).1)
        ∨ (extract_similarity
            ⟨"s1", "hvac_schedule", "d", 1, "low", none, none, some (.kstr "K")⟩).1
            ∈ init.dismissed_keys))
    ∧ should_suppress_suggestion
        { applied := [], dismissed_ids := ["s1"],
          dismissed_keys := [.kstr "K"], version := 1 }
        ⟨"s2", "hvac_schedule", "other", 2, "low", none, none, some (.kstr "K")⟩
        = true := by
  constructor
  · exact C2_should_suppress.1 init _ (by simp [init]) (by simp [init])
  · refine C2_should_suppress.2 "b1" "s1" init _
      ⟨"s1", "hvac_schedule", "d", 1, "low", none, none, some (.kstr "K")⟩
      ⟨"s2", "hvac_schedule", "other", 2, "low", none, none, some (.kstr "K")⟩
      (by decide) ?_
    rw [dismiss_suggestion_ok "b1" "s1" _ init (by decide) (by decide)]
    rfl

/-- **C10**: when a payload carries no (or an empty) `dedupe_key` /
`signature`, all three operations derive the same deterministic fallback:
the stable hash of the dict with `v = 1`, the payload's `type` and its
`params` — inferred from `type` + `description` by the fixed per-type
rules when no params mapping is supplied — (plus `desc` for the
signature); payloads agreeing on type, params and description agree on the
derived keys, the applied action stores exactly the derived keys, dismiss
records the derived dedupe key, and suppression recognizes it. -/
theorem C10_fallback_similarity :
    ∀ s : SuggestionPayload,
      ((keyOrEmpty s.dedupe_key).isEmptyStr = true →
        (extract_similarity s).1 = stable_hash 1 s.type (paramsOf s) none none)
      ∧ ((keyOrEmpty s.signature).isEmptyStr = true →
        (extract_similarity s).2
          = stable_hash 1 s.type (paramsOf s) none (some s.description))
      ∧ (s.params = none → paramsOf s = infer_params s)
      ∧ (∀ t : SuggestionPayload,
          s.type = t.type → s.params = t.params → s.description = t.description →
          ((keyOrEmpty s.dedupe_key).isEmptyStr = true →
            (keyOrEmpty t.dedupe_key).isEmptyStr = true →
            (extract_similarity s).1 = (extract_similarity t).1)
          ∧ ((keyOrEmpty s.signature).isEmptyStr = true →
            (keyOrEmpty t.signature).isEmptyStr = true →
            (extract_similarity s).2 = (extract_similarity t).2))
      ∧ (∀ (b now : String) (st : BuildingState) (a : AppliedAction)
          (st' : BuildingState),
          apply_suggestion b now st s = .ok (a, st') →
          a.dedupe_key = (extract_similarity s).1
            ∧ a.signature = (extract_similarity s).2)
      ∧ (∀ (b sid : String) (st st' : BuildingState),
          dismiss_suggestion b sid (some s) st = .ok st' →
          (extract_similarity s).1 ∈ st'.dismissed_keys)
      ∧ (∀ st : BuildingState,
          (extract_similarity s).1 ∈ st.dismissed_keys →
          should_suppress_suggestion st s = true) := by
  intro s
  have hparams : ∀ t : SuggestionPayload,
      s.type = t.type → s.params = t.params → s.description = t.description →
      paramsOf s = paramsOf t := by
    intro t hty hps hd
    unfold paramsOf
    rw [hps]
    cases t.params with
    | some p => rfl
    | none =>
        unfold infer_params
        rw [hty, hd]
  refine ⟨?_, ?_, ?_, ?_, ?_, ?_, fun st => suppress_of_dismissed_key st s⟩
  · intro h
    dsimp only [extract_similarity]
    rw [if_pos h]
  · intro h
    dsimp only [extract_similarity]
    rw [if_pos h]
  · intro h
    unfold paramsOf
    rw [h]
  · intro t hty hps hd
    have hpp := hparams t hty hps hd
    constructor
    · intro hs ht
      dsimp only [extract_similarity]
      rw [if_pos hs, if_pos ht, hty, hpp]
    · intro hs ht
      dsimp only [extract_similarity]
      rw [if_pos hs, if_pos ht, hty, hpp, hd]
  · intro b now st a st' h
    obtain ⟨h₁, h₂⟩ := apply_ok_ids h
    rw [apply_suggestion_ok b now st s h₁ h₂] at h
    cases h
    exact ⟨rfl, rfl⟩
  · intro b sid st st' h
    obtain ⟨h₁, h₂⟩ := dismiss_ok_ids h
    rw [dismiss_suggestion_ok b sid (some s) st h₁ h₂] at h
    cases h
    exact mem_setAdd.mpr (Or.inl rfl)

/-- Closed instantiation of `C10_fallback_similarity`: a
`setpoint_change` payload with no hashes gets the derived fallback dedupe
key built from `v = 1`, its type and its inferred params. -/
theorem C10_fallback_similarity_witness :
    (keyOrEmpty (SuggestionPayload.mk "s1" "setpoint_change"
        "Raise to 23.5°C now" 10 "low" none none none).dedupe_key).isEmptyStr
        = true
    ∧ (extract_similarity
        ⟨"s1", "setpoint_change", "Raise to 23.5°C now", 10, "low",
          none, none, none⟩).1
      = stable_hash 1
          (SuggestionPayload.mk "s1" "setpoint_change"
            "Raise to 23.5°C now" 10 "low" none none none).type
          (paramsOf ⟨"s1", "setpoint_change", "Raise to 23.5°C now", 10,
            "low", none, none, none⟩) none none :=
  ⟨by decide,
   (C10_fallback_similarity
     ⟨"s1", "setpoint_change", "Raise to 23.5°C now", 10, "low",
       none, none, none⟩).1 (by decide)⟩

end ActionStateService

theorem alLookup_eq_none {α β : Type} [DecidableEq α]
    {m : List (α × β)} {k : α} :
    alLookup m k = none ↔ k ∉ m.map Prod.fst := by
  induction m with
  | nil => simp [alLookup]
  | cons p rest ih =>
      obtain ⟨k₁, v₁⟩ := p
      by_cases h : k₁ = k
      · subst h
        simp [alLookup]
      · simp only [alLookup, if_neg h, List.map_cons, List.mem_cons, ih]
        constructor
        · rintro hn (rfl | hm)
          · exact h rfl
          · exact hn hm
        · intro hn hm
          exact hn (Or.inr hm)

theorem alLookup_mem {α β : Type} [DecidableEq α]
    {m : List (α × β)} {k : α} {v : β}
    (h : alLookup m k = some v) : (k, v) ∈ m := by
  induction m with
  | nil => simp [alLookup] at h
  | cons p rest ih =>
      obtain ⟨k₁, v₁⟩ := p
      rw [alLookup] at h
      split at h <;> rename_i hk
      · injection h with hv
        rw [← hk, ← hv]
        exact List.mem_cons_self _ _
      · exact List.mem_cons_of_mem _ (ih h)

theorem alInsert_of_not_mem {α β : Type} [DecidableEq α]
    {m : List (α × β)} {k : α} {v : β} (h : k ∉ m.map Prod.fst) :
    alInsert m k v = m ++ [(k, v)] := by
  induction m with
  | nil => rfl
  | cons p rest ih =>
      obtain ⟨k₁, v₁⟩ := p
      simp only [List.map_cons, List.mem_cons, not_or] at h
      rw [alInsert, if_neg (fun he => h.1 he.symm), List.cons_append,
        ih h.2]

theorem keys_alInsert_of_mem {α β : Type} [DecidableEq α]
    {m : List (α × β)} {k : α} {v : β} (h : k ∈ m.map Prod.fst) :
    (alInsert m k v).map Prod.fst = m.map Prod.fst := by
  induction m with
  | nil => simp at h
  | cons p rest ih =>
      obtain ⟨k₁, v₁⟩ := p
      by_cases hk : k₁ = k
      · subst hk
        rw [alInsert, if_pos rfl]
        simp
      · simp only [List.map_cons, List.mem_cons] at h
        rcases h with h | h
        · exact absurd h.symm hk
        · rw [alInsert, if_neg hk, List.map_cons, List.map_cons, ih h]

theorem mem_alInsert {α β : Type} [DecidableEq α]
    {m : List (α × β)} {k : α} {v : β} {kv : α × β}
    (hnd : (m.map Prod.fst).Nodup) :
    kv ∈ alInsert m k v ↔ kv = (k, v) ∨ (kv ∈ m ∧ kv.1 ≠ k) := by
  induction m with
  | nil =>
      simp [alInsert]
  | cons p rest ih =>
      obtain ⟨k₁, v₁⟩ := p
      simp only [List.map_cons, List.nodup_cons] at hnd
      by_cases hk : k₁ = k
      · subst hk
        rw [alInsert, if_pos rfl]
        simp only [List.mem_cons]
        constructor
        · rintro (rfl | hm)
          · exact Or.inl rfl
          · refine Or.inr ⟨Or.inr hm, ?_⟩
            intro he
            exact hnd.1 (he ▸ List.mem_map.mpr ⟨kv, hm, rfl⟩)
        · rintro (rfl | ⟨(rfl | hm), hne⟩)
          · exact Or.inl rfl
          · exact absurd rfl hne
          · exact Or.inr hm
      · rw [alInsert, if_neg hk]
        simp only [List.mem_cons, ih hnd.2]
        constructor
        · rintro (rfl | rfl | ⟨hm, hne⟩)
          · refine Or.inr ⟨Or.inl rfl, ?_⟩
            intro he
            exact hk he
          · exact Or.inl rfl
          · exact Or.inr ⟨Or.inr hm, hne⟩
        · rintro (rfl | ⟨(rfl | hm), hne⟩)
          · exact Or.inr (Or.inl rfl)
          · exact Or.inl rfl
          · exact Or.inr (Or.inr ⟨hm, hne⟩)

theorem nodup_key_eq {α β : Type} [DecidableEq α]
    {m : List (α × β)} (hnd : (m.map Prod.fst).Nodup)
    {kv₁ kv₂ : α × β} (h₁ : kv₁ ∈ m) (h₂ : kv₂ ∈ m)
    (hk : kv₁.1 = kv₂.1) : kv₁ = kv₂ := by
  induction m with
  | nil => simp at h₁
  | cons p rest ih =>
      simp only [List.map_cons, List.nodup_cons] at hnd
      rcases List.mem_cons.mp h₁ with h₁e | h₁m
      · rcases List.mem_cons.mp h₂ with h₂e | h₂m
        · rw [h₁e, h₂e]
        · exfalso
          apply hnd.1
          rw [← h₁e, hk]
          exact List.mem_map.mpr ⟨kv₂, h₂m, rfl⟩
      · rcases List.mem_cons.mp h₂ with h₂e | h₂m
        · exfalso
          apply hnd.1
          rw [← h₂e, ← hk]
          exact List.mem_map.mpr ⟨kv₁, h₁m, rfl⟩
        · exact ih hnd.2 h₁m h₂m

namespace SuggestionEngine

/-- **C3**: two candidates built with the same `type`, `params` and hash
version whose bucketed/banded context fields coincide get the same
`dedupe_key` whatever their building, description, savings estimate,
comfort risk and remaining (raw) context fields; signatures may still
differ when the full contexts differ (witnessed concretely). -/
theorem C3_dedupe_key_stability :
    (∀ (ty : String) (params : List (String × PVal)) (v : ℕ)
        (b₁ b₂ d₁ d₂ r₁ r₂ : String) (sav₁ sav₂ : ℚ)
        (ctx₁ ctx₂ : List (String × PVal)),
        sortByKey (ctx₁.filter (fun kv => isBucketed kv.1))
          = sortByKey (ctx₂.filter (fun kv => isBucketed kv.1)) →
        (make_suggestion b₁ ty d₁ sav₁ r₁ params ctx₁ v).dedupe_key
          = (make_suggestion b₂ ty d₂ sav₂ r₂ params ctx₂ v).dedupe_key)
    ∧ ((make_suggestion "b1" "hvac_schedule" "desc one" 10 "low"
          [("schedule", .pstr "night_setback")]
          [("avg_energy_kwh", .pfloat 100),
           ("base_load_ratio_bucket", .pfloat 2)] 2).dedupe_key
        = (make_suggestion "b2" "hvac_schedule" "desc two" 11 "low"
          [("schedule", .pstr "night_setback")]
          [("avg_energy_kwh", .pfloat 101),
           ("base_load_ratio_bucket", .pfloat 2)] 2).dedupe_key)
    ∧ (make_suggestion "b1" "hvac_schedule" "desc one" 10 "low"
          [("schedule", .pstr "night_setback")]
          [("avg_energy_kwh", .pfloat 100),
           ("base_load_ratio_bucket", .pfloat 2)] 2).signature
        ≠ (make_suggestion "b2" "hvac_schedule" "desc two" 11 "low"
          [("schedule", .pstr "night_setback")]
          [("avg_energy_kwh", .pfloat 101),
           ("base_load_ratio_bucket", .pfloat 2)] 2).signature := by
  refine ⟨?_, ?_, ?_⟩
  · intro ty params v b₁ b₂ d₁ d₂ r₁ r₂ sav₁ sav₂ ctx₁ ctx₂ h
    simp only [make_suggestion, stable_hash, Option.map_some']
    rw [h]
  · decide
  · decide

/-- Closed instantiation of `C3_dedupe_key_stability` at two occupancy
contexts agreeing on the bucketed field. -/
theorem C3_dedupe_key_stability_witness :
    (make_suggestion "b1" "hvac_schedule" "da" 15 "medium"
        [("schedule", .pstr "occupancy_based")]
        [("low_occ_ratio", .pfloat 3),
         ("low_occ_ratio_bucket", .pfloat 7)] 2).dedupe_key
      = (make_suggestion "b1" "hvac_schedule" "db" 16 "medium"
        [("schedule", .pstr "occupancy_based")]
        [("low_occ_ratio", .pfloat 4),
         ("low_occ_ratio_bucket", .pfloat 7)] 2).dedupe_key :=
  C3_dedupe_key_stability.1 "hvac_schedule"
    [("schedule", .pstr "occupancy_based")] 2 "b1" "b1" "da" "db"
    "medium" "medium" 15 16 _ _ (by decide)

end SuggestionEngine

namespace SuggestionEngine

theorem dedupeStep_eq (m : List ((Key ⊕ SuggId) × Sugg)) (c : Sugg) :
    dedupeStep m c =
      match alLookup m (effKey c) with
      | none => alInsert m (effKey c) c
      | some old =>
          if c.estimated_savings_kwh > old.estimated_savings_kwh
          then alInsert m (effKey c) c else m := rfl

theorem goodMap_step (m : List ((Key ⊕ SuggId) × Sugg)) (seen : List Sugg)
    (c : Sugg) (h : GoodMap m seen) : GoodMap (dedupeStep m c) (seen ++ [c]) := by
  obtain ⟨hnd, hent, hrep⟩ := h
  rw [dedupeStep_eq]
  cases hc : alLookup m (effKey c) with
  | none =>
      have hkn : effKey c ∉ m.map Prod.fst := alLookup_eq_none.mp hc
      dsimp only
      rw [alInsert_of_not_mem hkn]
      refine ⟨?_, ?_, ?_⟩
      · rw [List.map_append]
        rw [List.nodup_append]
        refine ⟨hnd, by simp, ?_⟩
        intro x hx
        simp only [List.map_cons, List.map_nil, List.mem_singleton]
        intro he
        exact hkn (he ▸ hx)
      · intro kv hkv
        rcases List.mem_append.mp hkv with hkv | hkv
        · obtain ⟨hek, hseen, hdom⟩ := hent kv hkv
          refine ⟨hek, List.mem_append_left _ hseen, ?_⟩
          intro t ht htk
          rcases List.mem_append.mp ht with ht | ht
          · exact hdom t ht htk
          · rw [List.mem_singleton] at ht
            rw [ht] at htk
            exact absurd (by rw [htk]; exact List.mem_map.mpr ⟨kv, hkv, rfl⟩) hkn
        · rw [List.mem_singleton] at hkv
          rw [hkv]
          refine ⟨rfl, List.mem_append_right _ (List.mem_singleton.mpr rfl), ?_⟩
          intro t ht htk
          rcases List.mem_append.mp ht with ht | ht
          · have htk₂ : effKey t = effKey c := htk
            exact absurd (htk₂ ▸ hrep t ht) hkn
          · rw [List.mem_singleton] at ht
            rw [ht]
      · intro t ht
        rcases List.mem_append.mp ht with ht | ht
        · rw [List.map_append]
          exact List.mem_append_left _ (hrep t ht)
        · rw [List.mem_singleton] at ht
          rw [ht, List.map_append]
          exact List.mem_append_right _ (by simp)
  | some old =>
      have hmem_old : (effKey c, old) ∈ m := alLookup_mem hc
      have hkm : effKey c ∈ m.map Prod.fst :=
        List.mem_map.mpr ⟨(effKey c, old), hmem_old, rfl⟩
      dsimp only
      by_cases hgt : c.estimated_savings_kwh > old.estimated_savings_kwh
      · rw [if_pos hgt]
        refine ⟨?_, ?_, ?_⟩
        · rw [keys_alInsert_of_mem hkm]
          exact hnd
        · intro kv hkv
          rcases (mem_alInsert hnd).mp hkv with hkve | ⟨hkvm, hkvne⟩
          · rw [hkve]
            refine ⟨rfl, List.mem_append_right _ (List.mem_singleton.mpr rfl), ?_⟩
            intro t ht htk
            rcases List.mem_append.mp ht with ht | ht
            · have htk₂ : effKey t = effKey c := htk
              have hto := (hent (effKey c, old) hmem_old).2.2 t ht htk₂
              exact le_trans hto (le_of_lt hgt)
            · rw [List.mem_singleton] at ht
              rw [ht]
          · obtain ⟨hek, hseen, hdom⟩ := hent kv hkvm
            refine ⟨hek, List.mem_append_left _ hseen, ?_⟩
            intro t ht htk
            rcases List.mem_append.mp ht with ht | ht
            · exact hdom t ht htk
            · rw [List.mem_singleton] at ht
              rw [ht] at htk
              exact absurd htk.symm hkvne
        · intro t ht
          rw [keys_alInsert_of_mem hkm]
          rcases List.mem_append.mp ht with ht | ht
          · exact hrep t ht
          · rw [List.mem_singleton] at ht
            rw [ht]
            exact hkm
      · rw [if_neg hgt]
        refine ⟨hnd, ?_, ?_⟩
        · intro kv hkv
          obtain ⟨hek, hseen, hdom⟩ := hent kv hkv
          refine ⟨hek, List.mem_append_left _ hseen, ?_⟩
          intro t ht htk
          rcases List.mem_append.mp ht with ht | ht
          · exact hdom t ht htk
          · rw [List.mem_singleton] at ht
            rw [ht] at htk
            have hkv_eq : (effKey c, old) = kv :=
              nodup_key_eq hnd hmem_old hkv htk
            have hold : old = kv.2 := by rw [← hkv_eq]
            rw [ht, ← hold]
            exact not_lt.mp hgt
        · intro t ht
          rcases List.mem_append.mp ht with ht | ht
          · exact hrep t ht
          · rw [List.mem_singleton] at ht
            rw [ht]
            exact hkm

theorem goodMap_foldl (cs : List Sugg) :
    ∀ (m : List ((Key ⊕ SuggId) × Sugg)) (seen : List Sugg),
      GoodMap m seen → GoodMap (cs.foldl dedupeStep m) (seen ++ cs) := by
  induction cs with
  | nil => intro m seen h; simpa using h
  | cons c cs ih =>
      intro m seen h
      have h₁ := goodMap_step m seen c h
      have h₂ := ih (dedupeStep m c) (seen ++ [c]) h₁
      rw [List.append_assoc] at h₂
      simpa using h₂

theorem goodMap_base (cs : List Sugg) : GoodMap (cs.foldl dedupeStep []) cs := by
  have h := goodMap_foldl cs [] [] ⟨by simp, by simp, by simp⟩
  simpa using h

theorem insertDesc_perm (s : Sugg) (l : List Sugg) :
    (insertDesc s l).Perm (s :: l) := by
  induction l with
  | nil => rfl
  | cons t ts ih =>
      rw [insertDesc]
      split
      · exact (List.Perm.cons t ih).trans (List.Perm.swap s t ts)
      · rfl

theorem sortDesc_perm (l : List Sugg) : (sortDesc l).Perm l := by
  induction l with
  | nil => rfl
  | cons s ss ih =>
      rw [sortDesc]
      exact (insertDesc_perm s (sortDesc ss)).trans (List.Perm.cons s ih)

theorem insertDesc_pairwise (s : Sugg) (l : List Sugg)
    (h : l.Pairwise (fun a b =>
      b.estimated_savings_kwh ≤ a.estimated_savings_kwh)) :
    (insertDesc s l).Pairwise (fun a b =>
      b.estimated_savings_kwh ≤ a.estimated_savings_kwh) := by
  induction l with
  | nil => simp [insertDesc]
  | cons t ts ih =>
      rw [List.pairwise_cons] at h
      rw [insertDesc]
      split <;> rename_i hgt
      · rw [List.pairwise_cons]
        constructor
        · intro x hx
          rcases List.mem_cons.mp ((insertDesc_perm s ts).mem_iff.mp hx)
            with rfl | hx
          · exact le_of_lt hgt
          · exact h.1 x hx
        · exact ih h.2
      · rw [List.pairwise_cons]
        constructor
        · intro x hx
          rcases List.mem_cons.mp hx with rfl | hx
          · exact not_lt.mp hgt
          · exact le_trans (h.1 x hx) (not_lt.mp hgt)
        · rw [List.pairwise_cons]
          exact ⟨h.1, h.2⟩

theorem sortDesc_pairwise (l : List Sugg) :
    (sortDesc l).Pairwise (fun a b =>
      b.estimated_savings_kwh ≤ a.estimated_savings_kwh) := by
  induction l with
  | nil => simp [sortDesc]
  | cons s ss ih => exact insertDesc_pairwise s (sortDesc ss) ih

theorem length_alInsert_le {α β : Type} [DecidableEq α]
    (m : List (α × β)) (k : α) (v : β) :
    (alInsert m k v).length ≤ m.length + 1 := by
  induction m with
  | nil => simp [alInsert]
  | cons p rest ih =>
      obtain ⟨k₁, v₁⟩ := p
      rw [alInsert]
      split
      · simp
      · simpa using Nat.succ_le_succ ih

theorem length_dedupeStep_le (m : List ((Key ⊕ SuggId) × Sugg)) (c : Sugg) :
    (dedupeStep m c).length ≤ m.length + 1 := by
  rw [dedupeStep_eq]
  cases alLookup m (effKey c) with
  | none => exact length_alInsert_le m _ c
  | some old =>
      dsimp only
      split
      · exact length_alInsert_le m _ c
      · exact Nat.le_succ _

theorem length_foldl_dedupe (cs : List Sugg) :
    ∀ m : List ((Key ⊕ SuggId) × Sugg),
      (cs.foldl dedupeStep m).length ≤ m.length + cs.length := by
  induction cs with
  | nil => intro m; simp
  | cons c cs ih =>
      intro m
      calc ((c :: cs).foldl dedupeStep m).length
          = (cs.foldl dedupeStep (dedupeStep m c)).length := rfl
        _ ≤ (dedupeStep m c).length + cs.length := ih _
        _ ≤ (m.length + 1) + cs.length :=
            Nat.add_le_add_right (length_dedupeStep_le m c) _
        _ = m.length + (c :: cs).length := by simp; omega

theorem sortDesc_length (l : List Sugg) : (sortDesc l).length = l.length :=
  (sortDesc_perm l).length_eq

/-- If a candidate's key is unique in the batch and the batch post-dedupe
fits under the cap, the candidate survives `postProcess`. -/
theorem mem_postProcess_of_unique (cs : List Sugg) (s : Sugg) (hs : s ∈ cs)
    (huniq : ∀ t ∈ cs, effKey t = effKey s → t = s)
    (hlen : cs.length ≤ 5) :
    s ∈ postProcess cs := by
  obtain ⟨hnd, hent, hrep⟩ := goodMap_base cs
  obtain ⟨kv, hkv, hkveq⟩ := List.mem_map.mp (hrep s hs)
  obtain ⟨hek, hseen, _⟩ := hent kv hkv
  have hkvs : kv.2 = s := huniq kv.2 hseen (by rw [hek, hkveq])
  have hmem : s ∈ (cs.foldl dedupeStep []).map Prod.snd :=
    List.mem_map.mpr ⟨kv, hkv, hkvs⟩
  have hlen₂ : ((cs.foldl dedupeStep []).map Prod.snd).length ≤ 5 := by
    rw [List.length_map]
    exact le_trans (length_foldl_dedupe cs []) (by simpa using hlen)
  unfold postProcess
  rw [List.take_of_length_le (by rw [sortDesc_length]; exact hlen₂)]
  exact (sortDesc_perm _).mem_iff.mpr hmem

end SuggestionEngine

namespace SuggestionEngine

theorem make_dedupe_eq (b ty d : String) (sav : ℚ) (r : String)
    (p c : List (String × PVal)) (v : ℕ) :
    (make_suggestion b ty d sav r p c v).dedupe_key
      = Key.khash ⟨v, ty, sortByKey p,
          some (sortByKey (c.filter (fun kv => isBucketed kv.1))), none⟩ := rfl

theorem make_dedupe_not_empty (b ty d : String) (sav : ℚ) (r : String)
    (p c : List (String × PVal)) (v : ℕ) :
    (make_suggestion b ty d sav r p c v).dedupe_key.isEmptyStr = false := rfl

theorem effKey_make (b ty d : String) (sav : ℚ) (r : String)
    (p c : List (String × PVal)) (v : ℕ) :
    effKey (make_suggestion b ty d sav r p c v)
      = .inl (make_suggestion b ty d sav r p c v).dedupe_key := by
  unfold effKey
  rw [make_dedupe_not_empty]
  simp

theorem make_dedupe_ne_of_type {ty₁ ty₂ : String} (h : ty₁ ≠ ty₂)
    (b₁ b₂ d₁ d₂ r₁ r₂ : String) (sav₁ sav₂ : ℚ)
    (p₁ p₂ c₁ c₂ : List (String × PVal)) (v₁ v₂ : ℕ) :
    (make_suggestion b₁ ty₁ d₁ sav₁ r₁ p₁ c₁ v₁).dedupe_key
      ≠ (make_suggestion b₂ ty₂ d₂ sav₂ r₂ p₂ c₂ v₂).dedupe_key := by
  rw [make_dedupe_eq, make_dedupe_eq]
  intro he
  simp only [Key.khash.injEq, HashPayload.mk.injEq] at he
  exact h he.2.1

theorem make_dedupe_ne_of_ctx_keys {c₁ c₂ : List (String × PVal)}
    (h : (sortByKey (c₁.filter (fun kv => isBucketed kv.1))).map Prod.fst
        ≠ (sortByKey (c₂.filter (fun kv => isBucketed kv.1))).map Prod.fst)
    (b₁ b₂ ty₁ ty₂ d₁ d₂ r₁ r₂ : String) (sav₁ sav₂ : ℚ)
    (p₁ p₂ : List (String × PVal)) (v₁ v₂ : ℕ) :
    (make_suggestion b₁ ty₁ d₁ sav₁ r₁ p₁ c₁ v₁).dedupe_key
      ≠ (make_suggestion b₂ ty₂ d₂ sav₂ r₂ p₂ c₂ v₂).dedupe_key := by
  rw [make_dedupe_eq, make_dedupe_eq]
  intro he
  simp only [Key.khash.injEq, HashPayload.mk.injEq, Option.some.injEq] at he
  exact h (congrArg (List.map Prod.fst) he.2.2.2.1)

theorem energy_ctx_keys (x₁ x₂ x₃ x₄ : ℚ) :
    (sortByKey (([("avg_energy_kwh", PVal.pfloat x₁),
        ("min_energy_kwh", PVal.pfloat x₂),
        ("base_load_ratio", PVal.pfloat x₃),
        ("base_load_ratio_bucket", PVal.pfloat x₄)]).filter
          (fun kv => isBucketed kv.1))).map Prod.fst
      = ["base_load_ratio_bucket"] := rfl

theorem occ_ctx_keys (x₁ x₂ : ℚ) :
    (sortByKey (([("low_occ_ratio", PVal.pfloat x₁),
        ("low_occ_ratio_bucket", PVal.pfloat x₂)]).filter
          (fun kv => isBucketed kv.1))).map Prod.fst
      = ["low_occ_ratio_bucket"] := rfl

theorem rule_ctx_keys (s : String) :
    (sortByKey (([("rule_band", PVal.pstr s)]).filter
        (fun kv => isBucketed kv.1))).map Prod.fst
      = ["rule_band"] := rfl

theorem energy_shape (df : List TRow) (b : String) :
    analyze_energy_patterns df b = []
    ∨ ∃ (d : String) (sav x₁ x₂ x₃ x₄ : ℚ),
        analyze_energy_patterns df b
          = [make_suggestion b "hvac_schedule" d sav "low"
              [("schedule", .pstr "night_setback")]
              [("avg_energy_kwh", .pfloat x₁),
               ("min_energy_kwh", .pfloat x₂),
               ("base_load_ratio", .pfloat x₃),
               ("base_load_ratio_bucket", .pfloat x₄)] 2] := by
  unfold analyze_energy_patterns
  dsimp only
  split
  · exact Or.inl rfl
  · split
    · exact Or.inr ⟨_, _, _, _, _, _, rfl⟩
    · exact Or.inl rfl

theorem temp_shape (df : List TRow) (b : String) :
    analyze_temperature_patterns df b = []
    ∨ ∃ (d : String) (sav x₁ : ℚ) (band : String) (t : ℚ),
        analyze_temperature_patterns df b
          = [make_suggestion b "setpoint_change" d sav "low"
              [("setpoint_c_target", .pfloat t)]
              [("avg_temp_bucket", .pfloat x₁),
               ("target_setpoint_band", .pstr band)] 2] := by
  unfold analyze_temperature_patterns
  dsimp only
  split
  · exact Or.inl rfl
  · split
    · exact Or.inr ⟨_, _, _, _, _, rfl⟩
    · exact Or.inl rfl

theorem occ_shape (df : List TRow) (b : String) :
    analyze_occupancy_patterns df b = []
    ∨ ∃ (d : String) (sav x₁ x₂ : ℚ),
        analyze_occupancy_patterns df b
          = [make_suggestion b "hvac_schedule" d sav "medium"
              [("schedule", .pstr "occupancy_based")]
              [("low_occ_ratio", .pfloat x₁),
               ("low_occ_ratio_bucket", .pfloat x₂)] 2] := by
  unfold analyze_occupancy_patterns
  dsimp only
  split
  · exact Or.inl rfl
  · split
    · exact Or.inr ⟨_, _, _, _, rfl⟩
    · exact Or.inl rfl

theorem analyzer_keys_ne_rules (b b' : String) (df : List TRow) :
    ∀ t : Sugg,
      (t ∈ analyze_energy_patterns df b
        ∨ t ∈ analyze_temperature_patterns df b
        ∨ t ∈ analyze_occupancy_patterns df b) →
      ∀ r ∈ rule_based_suggestions b', t.dedupe_key ≠ r.dedupe_key := by
  intro t ht r hr
  have hr₂ : r = make_suggestion b' "hvac_schedule"
        "Pre-cool office zones by 1°C between 7:00–8:00 to reduce peak load."
        (25/2) "low"
        [("schedule", .pstr "pre_cool"), ("delta_c", .pfloat 1),
         ("window", .pstr "07:00-08:00")]
        [("rule_band", .pstr "precool")] 2
      ∨ r = make_suggestion b' "ventilation"
        "Increase CO₂-based fresh air intake threshold from 800 ppm to 900 ppm in low-occupancy periods."
        (26/5) "medium"
        [("co2_threshold_ppm", .pint 900)]
        [("rule_band", .pstr "co2_900")] 2 := by
    simpa [rule_based_suggestions] using hr
  rcases ht with ht | ht | ht
  · rcases energy_shape df b with hsh | ⟨d, sav, x₁, x₂, x₃, x₄, hsh⟩
    · rw [hsh] at ht
      exact absurd ht (by simp)
    · rw [hsh] at ht
      rw [List.mem_singleton] at ht
      rw [ht]
      rcases hr₂ with rfl | rfl
      · refine make_dedupe_ne_of_ctx_keys ?_ _ _ _ _ _ _ _ _ _ _ _ _ _ _
        rw [energy_ctx_keys, rule_ctx_keys]
        decide
      · exact make_dedupe_ne_of_type (by decide) _ _ _ _ _ _ _ _ _ _ _ _ _ _
  · rcases temp_shape df b with hsh | ⟨d, sav, x₁, band, tt, hsh⟩
    · rw [hsh] at ht
      exact absurd ht (by simp)
    · rw [hsh] at ht
      rw [List.mem_singleton] at ht
      rw [ht]
      rcases hr₂ with rfl | rfl
      · exact make_dedupe_ne_of_type (by decide) _ _ _ _ _ _ _ _ _ _ _ _ _ _
      · exact make_dedupe_ne_of_type (by decide) _ _ _ _ _ _ _ _ _ _ _ _ _ _
  · rcases occ_shape df b with hsh | ⟨d, sav, x₁, x₂, hsh⟩
    · rw [hsh] at ht
      exact absurd ht (by simp)
    · rw [hsh] at ht
      rw [List.mem_singleton] at ht
      rw [ht]
      rcases hr₂ with rfl | rfl
      · refine make_dedupe_ne_of_ctx_keys ?_ _ _ _ _ _ _ _ _ _ _ _ _ _ _
        rw [occ_ctx_keys, rule_ctx_keys]
        decide
      · exact make_dedupe_ne_of_type (by decide) _ _ _ _ _ _ _ _ _ _ _ _ _ _

theorem rules_mem_post (la lr : List Sugg)
    (hr : ∀ r ∈ lr, r.dedupe_key.isEmptyStr = false)
    (hne : ∀ r₁ ∈ lr, ∀ r₂ ∈ lr, r₁.dedupe_key = r₂.dedupe_key → r₁ = r₂)
    (hsh : ∀ t ∈ la, ∀ r ∈ lr, t.dedupe_key ≠ r.dedupe_key)
    (hlen : la.length + lr.length ≤ 5) :
    ∀ s ∈ lr, s ∈ postProcess (la ++ lr) := by
  intro s hs
  apply mem_postProcess_of_unique
  · exact List.mem_append_right _ hs
  · intro t ht htk
    have hesk : effKey s = .inl s.dedupe_key := by
      unfold effKey
      rw [hr s hs]
      simp
    rcases List.mem_append.mp ht with ht | ht
    · by_cases hte : t.dedupe_key.isEmptyStr = true
      · rw [hesk] at htk
        unfold effKey at htk
        rw [if_pos hte] at htk
        exact absurd htk (by simp)
      · rw [hesk] at htk
        unfold effKey at htk
        rw [if_neg hte] at htk
        have hk : t.dedupe_key = s.dedupe_key := by
          simpa using htk
        exact absurd hk (hsh t ht s hs)
    · have hetk : effKey t = .inl t.dedupe_key := by
        unfold effKey
        rw [hr t ht]
        simp
      rw [hesk, hetk] at htk
      exact hne t ht s hs (by simpa using htk)
  · rw [List.length_append]
    exact hlen

end SuggestionEngine

namespace SuggestionEngine

/-- **C7**: the output stage of `generate_suggestions` deduplicates by
dedupe key keeping, per key, a candidate from the input that dominates
every input candidate sharing its key by `estimated_savings_kwh`, returns
keys pairwise distinct, sorted by `estimated_savings_kwh` descending, and
capped at 5; of two candidates {savings 10} / {savings 15} sharing key
`"K"`, only the savings-15 one survives. -/
theorem C7_output_stage :
    (∀ cs : List Sugg,
        (postProcess cs).Pairwise (fun a b =>
          b.estimated_savings_kwh ≤ a.estimated_savings_kwh)
        ∧ (postProcess cs).length ≤ 5
        ∧ (∀ s ∈ postProcess cs, s ∈ cs ∧
            ∀ t ∈ cs, effKey t = effKey s →
              t.estimated_savings_kwh ≤ s.estimated_savings_kwh)
        ∧ (postProcess cs).Pairwise (fun a b => effKey a ≠ effKey b))
    ∧ postProcess
        [⟨⟨"hvac_schedule", "b1", .kstr "sa"⟩, "hvac_schedule", "da", 10,
          "low", [], .kstr "sa", .kstr "K"⟩,
         ⟨⟨"hvac_schedule", "b1", .kstr "sb"⟩, "hvac_schedule", "db", 15,
          "low", [], .kstr "sb", .kstr "K"⟩]
      = [⟨⟨"hvac_schedule", "b1", .kstr "sb"⟩, "hvac_schedule", "db", 15,
          "low", [], .kstr "sb", .kstr "K"⟩] := by
  constructor
  · intro cs
    obtain ⟨hnd, hent, hrep⟩ := goodMap_base cs
    refine ⟨?_, ?_, ?_, ?_⟩
    · exact List.Pairwise.sublist (List.take_sublist _ _) (sortDesc_pairwise _)
    · exact List.length_take_le _ _
    · intro s hsp
      have hs₁ : s ∈ sortDesc ((cs.foldl dedupeStep []).map Prod.snd) :=
        (List.take_sublist _ _).subset hsp
      have hs₂ : s ∈ (cs.foldl dedupeStep []).map Prod.snd :=
        (sortDesc_perm _).mem_iff.mp hs₁
      obtain ⟨kv, hkv, hkveq⟩ := List.mem_map.mp hs₂
      obtain ⟨hek, hseen, hdom⟩ := hent kv hkv
      subst hkveq
      exact ⟨hseen, fun t ht htk => hdom t ht (htk.trans hek)⟩
    · have h₁ : (cs.foldl dedupeStep []).Pairwise
          (fun kv₁ kv₂ => kv₁.1 ≠ kv₂.1) := List.pairwise_map.mp hnd
      have h₂ : (cs.foldl dedupeStep []).Pairwise
          (fun kv₁ kv₂ => effKey kv₁.2 ≠ effKey kv₂.2) := by
        refine h₁.imp_of_mem ?_
        intro a b ha hb hne
        rw [(hent a ha).1, (hent b hb).1]
        exact hne
      have h₃ : ((cs.foldl dedupeStep []).map Prod.snd).Pairwise
          (fun a b => effKey a ≠ effKey b) := List.pairwise_map.mpr h₂
      have h₄ := ((sortDesc_perm ((cs.foldl dedupeStep []).map Prod.snd)).pairwise_iff
        (fun h => h.symm)).mpr h₃
      exact List.Pairwise.sublist (List.take_sublist _ _) h₄
  · decide

/-- Closed instantiation of `C7_output_stage` at the two-candidate batch
sharing dedupe key `"K"`. -/
theorem C7_output_stage_witness :
    (postProcess
        [⟨⟨"hvac_schedule", "b1", .kstr "sa"⟩, "hvac_schedule", "da", 10,
          "low", [], .kstr "sa", .kstr "K"⟩,
         ⟨⟨"hvac_schedule", "b1", .kstr "sb"⟩, "hvac_schedule", "db", 15,
          "low", [], .kstr "sb", .kstr "K"⟩]).length ≤ 5
    ∧ (⟨⟨"hvac_schedule", "b1", .kstr "sb"⟩, "hvac_schedule", "db", 15,
          "low", [], .kstr "sb", .kstr "K"⟩ : Sugg)
        ∈ [(⟨⟨"hvac_schedule", "b1", .kstr "sa"⟩, "hvac_schedule", "da", 10,
          "low", [], .kstr "sa", .kstr "K"⟩ : Sugg),
         ⟨⟨"hvac_schedule", "b1", .kstr "sb"⟩, "hvac_schedule", "db", 15,
          "low", [], .kstr "sb", .kstr "K"⟩] :=
  ⟨(C7_output_stage.1 _).2.1,
   ((C7_output_stage.1 _).2.2.1 _ (by decide)).1⟩

/-- **C8**: both rule-based fallback suggestions (the pre-cool schedule
and the CO₂-threshold change) appear in the output of
`generate_suggestions` for every building id and every telemetry outcome,
including empty and unavailable telemetry; in particular the output is
never empty. -/
theorem C8_rule_fallbacks :
    ∀ (b : String) (fetch : Except Unit (List TRow)),
      ∀ s ∈ rule_based_suggestions b, s ∈ generate_suggestions b fetch := by
  intro b fetch s hs
  have hr : ∀ r ∈ rule_based_suggestions b, r.dedupe_key.isEmptyStr = false := by
    intro r hrm
    simp only [rule_based_suggestions, List.mem_cons, List.mem_singleton,
      List.not_mem_nil, or_false] at hrm
    rcases hrm with rfl | rfl
    · exact make_dedupe_not_empty _ _ _ _ _ _ _ _
    · exact make_dedupe_not_empty _ _ _ _ _ _ _ _
  have hne : ∀ r₁ ∈ rule_based_suggestions b, ∀ r₂ ∈ rule_based_suggestions b,
      r₁.dedupe_key = r₂.dedupe_key → r₁ = r₂ := by
    intro r₁ h₁ r₂ h₂ hk
    simp only [rule_based_suggestions, List.mem_cons, List.mem_singleton,
      List.not_mem_nil, or_false] at h₁ h₂
    rcases h₁ with rfl | rfl <;> rcases h₂ with rfl | rfl
    · rfl
    · exact absurd hk
        (make_dedupe_ne_of_type (by decide) _ _ _ _ _ _ _ _ _ _ _ _ _ _)
    · exact absurd hk
        (make_dedupe_ne_of_type (by decide) _ _ _ _ _ _ _ _ _ _ _ _ _ _)
    · rfl
  have hrlen : (rule_based_suggestions b).length = 2 := by
    simp [rule_based_suggestions]
  cases fetch with
  | error e =>
      unfold generate_suggestions
      dsimp only
      refine rules_mem_post [] _ hr hne ?_ ?_ s hs
      · intro t ht
        exact absurd ht (by simp)
      · simp only [List.length_nil, hrlen]
        omega
  | ok df =>
      unfold generate_suggestions
      dsimp only
      by_cases hdf : df.isEmpty
      · rw [if_pos hdf]
        refine rules_mem_post [] _ hr hne ?_ ?_ s hs
        · intro t ht
          exact absurd ht (by simp)
        · simp only [List.length_nil, hrlen]
          omega
      · rw [if_neg hdf]
        refine rules_mem_post _ _ hr hne ?_ ?_ s hs
        · intro t ht r hrm
          have ht₂ : t ∈ analyze_energy_patterns df b
              ∨ t ∈ analyze_temperature_patterns df b
              ∨ t ∈ analyze_occupancy_patterns df b := by
            rcases List.mem_append.mp ht with ht | ht
            · rcases List.mem_append.mp ht with ht | ht
              · exact Or.inl ht
              · exact Or.inr (Or.inl ht)
            · exact Or.inr (Or.inr ht)
          exact analyzer_keys_ne_rules b b df t ht₂ r hrm
        · have hE : (analyze_energy_patterns df b).length ≤ 1 := by
            rcases energy_shape df b with h | ⟨_, _, _, _, _, _, h⟩ <;>
              rw [h] <;> simp
          have hT : (analyze_temperature_patterns df b).length ≤ 1 := by
            rcases temp_shape df b with h | ⟨_, _, _, _, _, h⟩ <;>
              rw [h] <;> simp
          have hO : (analyze_occupancy_patterns df b).length ≤ 1 := by
            rcases occ_shape df b with h | ⟨_, _, _, _, h⟩ <;>
              rw [h] <;> simp
          rw [List.length_append, List.length_append, hrlen]
          omega

/-- Closed instantiation of `C8_rule_fallbacks`: with unavailable
telemetry, both fallbacks are in the generated output. -/
theorem C8_rule_fallbacks_witness :
    make_suggestion "b1" "hvac_schedule"
      "Pre-cool office zones by 1°C between 7:00–8:00 to reduce peak load."
      (25/2) "low"
      [("schedule", .pstr "pre_cool"), ("delta_c", .pfloat 1),
       ("window", .pstr "07:00-08:00")]
      [("rule_band", .pstr "precool")] 2
      ∈ generate_suggestions "b1" (Except.error ())
    ∧ make_suggestion "b1" "ventilation"
      "Increase CO₂-based fresh air intake threshold from 800 ppm to 900 ppm in low-occupancy periods."
      (26/5) "medium"
      [("co2_threshold_ppm", .pint 900)]
      [("rule_band", .pstr "co2_900")] 2
      ∈ generate_suggestions "b1" (Except.error ()) :=
  ⟨C8_rule_fallbacks "b1" (.error ()) _ (List.mem_cons_self _ _),
   C8_rule_fallbacks "b1" (.error ()) _
     (List.mem_cons_of_mem _ (List.mem_cons_self _ _))⟩

end SuggestionEngine

theorem zip_map_fst {α β γ : Type} (g : α → γ) :
    ∀ (l₁ : List α) (l₂ : List β), l₂.length = l₁.length →
      (l₁.zip l₂).map (fun rc => g rc.1) = l₁.map g := by
  intro l₁
  induction l₁ with
  | nil => intro l₂ h; simp
  | cons a as ih =>
      intro l₂ h
      cases l₂ with
      | nil => simp at h
      | cons b bs =>
          simp only [List.zip_cons_cons, List.map_cons]
          rw [ih bs (by simpa using h)]

theorem zip_map_snd {α β : Type} :
    ∀ (l₁ : List α) (l₂ : List β), l₂.length = l₁.length →
      (l₁.zip l₂).map (fun rc => rc.2) = l₂ := by
  intro l₁
  induction l₁ with
  | nil =>
      intro l₂ h
      rw [List.length_nil, List.length_eq_zero] at h
      subst h
      rfl
  | cons a as ih =>
      intro l₂ h
      cases l₂ with
      | nil => simp at h
      | cons b bs =>
          simp only [List.zip_cons_cons, List.map_cons]
          rw [ih bs (by simpa using h)]

theorem zipWith_const_left {α : Type} (f : ℚ → ℚ → ℚ) (c : ℚ) :
    ∀ (l₁ : List α) (l₂ : List ℚ), l₂.length = l₁.length →
      List.zipWith f (l₁.map fun _ => c) l₂ = l₂.map (f c) := by
  intro l₁
  induction l₁ with
  | nil =>
      intro l₂ h
      rw [List.length_nil, List.length_eq_zero] at h
      subst h
      rfl
  | cons a as ih =>
      intro l₂ h
      cases l₂ with
      | nil => simp at h
      | cons b bs =>
          simp only [List.map_cons, List.zipWith_cons_cons]
          rw [ih bs (by simpa using h)]

namespace SuggestionEngine

theorem foldl_min_le (xs : List ℚ) : ∀ a : ℚ,
    xs.foldl min a ≤ a ∧ ∀ y ∈ xs, xs.foldl min a ≤ y := by
  induction xs with
  | nil => intro a; exact ⟨le_refl a, by simp⟩
  | cons x xs ih =>
      intro a
      obtain ⟨h₁, h₂⟩ := ih (min a x)
      refine ⟨le_trans h₁ (min_le_left a x), ?_⟩
      intro y hy
      rcases List.mem_cons.mp hy with rfl | hy
      · exact le_trans h₁ (min_le_right a y)
      · exact h₂ y hy

theorem le_foldl_max (xs : List ℚ) : ∀ a : ℚ,
    a ≤ xs.foldl max a ∧ ∀ y ∈ xs, y ≤ xs.foldl max a := by
  induction xs with
  | nil => intro a; exact ⟨le_refl a, by simp⟩
  | cons x xs ih =>
      intro a
      obtain ⟨h₁, h₂⟩ := ih (max a x)
      refine ⟨le_trans (le_max_left a x) h₁, ?_⟩
      intro y hy
      rcases List.mem_cons.mp hy with rfl | hy
      · exact le_trans (le_max_right a y) h₁
      · exact h₂ y hy

theorem listMin_le_of_mem {l : List ℚ} {y : ℚ} (h : y ∈ l) :
    listMin l ≤ y := by
  cases l with
  | nil => simp at h
  | cons x xs =>
      rcases List.mem_cons.mp h with rfl | h
      · exact (foldl_min_le xs y).1
      · exact (foldl_min_le xs x).2 y h

theorem le_listMax_of_mem {l : List ℚ} {y : ℚ} (h : y ∈ l) :
    y ≤ listMax l := by
  cases l with
  | nil => simp at h
  | cons x xs =>
      rcases List.mem_cons.mp h with rfl | h
      · exact (le_foldl_max xs y).1
      · exact (le_foldl_max xs x).2 y h

theorem foldl_min_mem (xs : List ℚ) : ∀ a : ℚ, xs.foldl min a ∈ a :: xs := by
  induction xs with
  | nil => intro a; simp
  | cons x xs ih =>
      intro a
      rw [List.foldl_cons]
      have h := ih (min a x)
      rcases min_choice a x with hc | hc
      · rw [hc] at h ⊢
        rcases List.mem_cons.mp h with h | h
        · exact List.mem_cons.mpr (Or.inl h)
        · exact List.mem_cons_of_mem _ (List.mem_cons_of_mem _ h)
      · rw [hc] at h ⊢
        rcases List.mem_cons.mp h with h | h
        · exact List.mem_cons_of_mem _ (List.mem_cons.mpr (Or.inl h))
        · exact List.mem_cons_of_mem _ (List.mem_cons_of_mem _ h)

theorem foldl_max_mem (xs : List ℚ) : ∀ a : ℚ, xs.foldl max a ∈ a :: xs := by
  induction xs with
  | nil => intro a; simp
  | cons x xs ih =>
      intro a
      rw [List.foldl_cons]
      have h := ih (max a x)
      rcases max_choice a x with hc | hc
      · rw [hc] at h ⊢
        rcases List.mem_cons.mp h with h | h
        · exact List.mem_cons.mpr (Or.inl h)
        · exact List.mem_cons_of_mem _ (List.mem_cons_of_mem _ h)
      · rw [hc] at h ⊢
        rcases List.mem_cons.mp h with h | h
        · exact List.mem_cons_of_mem _ (List.mem_cons.mpr (Or.inl h))
        · exact List.mem_cons_of_mem _ (List.mem_cons_of_mem _ h)

theorem listMin_mem {l : List ℚ} (h : l ≠ []) : listMin l ∈ l := by
  cases l with
  | nil => exact absurd rfl h
  | cons x xs => exact foldl_min_mem xs x

theorem listMax_mem {l : List ℚ} (h : l ≠ []) : listMax l ∈ l := by
  cases l with
  | nil => exact absurd rfl h
  | cons x xs => exact foldl_max_mem xs x

end SuggestionEngine

namespace Anomaly

theorem normalize_length (s : List ℚ) : (normalize s).length = s.length := by
  unfold normalize
  split
  · rfl
  · dsimp only
    split <;> rw [List.length_map]

theorem normalize_mem_bounds (s : List ℚ) :
    ∀ y ∈ normalize s, 0 ≤ y ∧ y ≤ 1 := by
  intro y hy
  unfold normalize at hy
  split at hy
  · rename_i hemp
    rw [List.isEmpty_iff] at hemp
    rw [hemp] at hy
    simp at hy
  · dsimp only at hy
    split at hy <;> rename_i hrange
    · obtain ⟨x, hx, hxy⟩ := List.mem_map.mp hy
      rw [← hxy]
      norm_num
    · obtain ⟨x, hx, hxy⟩ := List.mem_map.mp hy
      rw [← hxy]
      have hlo : SuggestionEngine.listMin s ≤ x :=
        SuggestionEngine.listMin_le_of_mem hx
      have hhi : x ≤ SuggestionEngine.listMax s :=
        SuggestionEngine.le_listMax_of_mem hx
      have hpos : 0 < SuggestionEngine.listMax s - SuggestionEngine.listMin s := by
        have := not_lt.mp hrange
        calc (0:ℚ) < 1/100000000 := by norm_num
          _ ≤ _ := this
      constructor
      · exact div_nonneg (by linarith) (le_of_lt hpos)
      · rw [div_le_one hpos]
        linarith

theorem combined_mem_bounds : ∀ (l₁ l₂ : List ℚ),
    (∀ y ∈ l₁, 0 ≤ y ∧ y ≤ 1) → (∀ y ∈ l₂, 0 ≤ y ∧ y ≤ 1) →
    ∀ c ∈ List.zipWith (fun a b => (1/2) * a + (1/2) * b) l₁ l₂,
      0 ≤ c ∧ c ≤ 1 := by
  intro l₁
  induction l₁ with
  | nil => intro l₂ h₁ h₂ c hc; simp at hc
  | cons a as ih =>
      intro l₂ h₁ h₂ c hc
      cases l₂ with
      | nil => simp at hc
      | cons b bs =>
          rw [List.zipWith_cons_cons] at hc
          rcases List.mem_cons.mp hc with rfl | hc
          · obtain ⟨ha₀, ha₁⟩ := h₁ a (List.mem_cons_self _ _)
            obtain ⟨hb₀, hb₁⟩ := h₂ b (List.mem_cons_self _ _)
            constructor <;> linarith
          · exact ih bs (fun y hy => h₁ y (List.mem_cons_of_mem _ hy))
              (fun y hy => h₂ y (List.mem_cons_of_mem _ hy)) c hc

theorem detect_ok_char (ae ifm : Detector) (scaler : Scaler) (metric : String)
    (rows : List FVec) (aeS ifS : List ℚ) (hne : rows ≠ [])
    (hae : autoencoder_reconstruction_error ae rows = .ok aeS)
    (hif : isolation_forest_scores ifm scaler rows = .ok ifS) :
    detect_anomalies ae ifm scaler metric rows
      = .ok ((rows.zip (List.zipWith (fun a b => (1/2) * a + (1/2) * b)
            (normalize aeS) (normalize ifS))).map (fun rc =>
          { timestamp := rc.1.ts
            metric := metric
            value := featureValue rc.1 (valueCol metric)
            score := rc.2
            is_anomaly := decide (rc.2 ≥ quantile90
              (List.zipWith (fun a b => (1/2) * a + (1/2) * b)
                (normalize aeS) (normalize ifS))) })) := by
  have hemp : rows.isEmpty = false := by
    cases rows
    · exact absurd rfl hne
    · rfl
  unfold detect_anomalies
  rw [hemp]
  simp only [Bool.false_eq_true, if_false, hae, hif]

theorem build_ok_char (ae ifm : Detector) (scaler : Scaler)
    (rows : List FVec) (aeS ifS : List ℚ) (hne : rows ≠ [])
    (hae : autoencoder_reconstruction_error ae rows = .ok aeS)
    (hif : isolation_forest_scores ifm scaler rows = .ok ifS) :
    build_anomalies ae ifm scaler rows
      = .ok ((rows.zip (List.zipWith (fun a b => (1/2) * a + (1/2) * b)
            (dashNormalize aeS) (dashNormalize ifS))).map (fun rc =>
          { ts := rc.1.ts
            score := rc.2
            is_anomaly := decide (rc.2 ≥ (17 : ℚ)/20) })) := by
  have hemp : rows.isEmpty = false := by
    cases rows
    · exact absurd rfl hne
    · rfl
  unfold build_anomalies
  rw [hemp]
  simp only [Bool.false_eq_true, if_false, hae, hif]

theorem normalize_all_zero {s : List ℚ} (hne : s ≠ [])
    (hz : ∀ y ∈ s, y = 0) : normalize s = s.map (fun _ => 0) := by
  have hmin : SuggestionEngine.listMin s = 0 :=
    hz _ (SuggestionEngine.listMin_mem hne)
  have hmax : SuggestionEngine.listMax s = 0 :=
    hz _ (SuggestionEngine.listMax_mem hne)
  unfold normalize
  split
  · rename_i hemp
    rw [List.isEmpty_iff] at hemp
    exact absurd hemp hne
  · dsimp only
    rw [hmin, hmax, if_pos (by norm_num)]

end Anomaly

namespace Anomaly

theorem quantile90_single : quantile90 [(0:ℚ)] = 0 := by
  unfold quantile90
  dsimp only [sortAsc, insertAsc, List.length_cons, List.length_nil]
  norm_num

theorem zipWith_half_single :
    List.zipWith (fun a b => (1/2 : ℚ) * a + (1/2) * b) [0] [0] = [0] := by
  norm_num

theorem normalize_single_zero : normalize [(0:ℚ)] = [0] := by
  have h := normalize_all_zero (s := [(0:ℚ)]) (by simp) (by simp)
  simpa using h

theorem dashNormalize_single_zero : dashNormalize [(0:ℚ)] = [0] := by
  unfold dashNormalize
  dsimp only [SuggestionEngine.listMin, SuggestionEngine.listMax, List.foldl]
  norm_num

theorem detect_single :
    detect_anomalies none none none "energy" [⟨"t0", 1, 1, 1, 1, 1, 1, 1⟩]
      = .ok [⟨"t0", "energy", 1, 0, true⟩] := by
  rw [detect_ok_char none none none "energy" [⟨"t0", 1, 1, 1, 1, 1, 1, 1⟩]
    [0] [0] (by simp) rfl rfl]
  rw [normalize_single_zero, zipWith_half_single, quantile90_single]
  simp only [List.zip_cons_cons, List.zip_nil_right, List.map_cons,
    List.map_nil]
  norm_num [featureValue, valueCol, FEATURE_COLS]

theorem build_single :
    build_anomalies none none none [⟨"t0", 1, 1, 1, 1, 1, 1, 1⟩]
      = .ok [⟨"t0", 0, false⟩] := by
  rw [build_ok_char none none none [⟨"t0", 1, 1, 1, 1, 1, 1, 1⟩]
    [0] [0] (by simp) rfl rfl]
  rw [dashNormalize_single_zero, zipWith_half_single]
  simp only [List.zip_cons_cons, List.zip_nil_right, List.map_cons,
    List.map_nil]
  norm_num

/-- **C6**: the ensemble scorer returns an empty result on an empty batch
without error; a near-constant raw vector (`max - min < 1e-8`) normalizes
to all zeros; and whenever both detectors score a batch (one value per
row), the scorer succeeds with one point per row in input order, scores
equal to the 0.5/0.5 combination of the two min-max-normalized vectors,
every score within [0, 1]. -/
theorem C6_ensemble_contract :
    (∀ (ae ifm : Detector) (scaler : Scaler) (metric : String),
        detect_anomalies ae ifm scaler metric [] = .ok [])
    ∧ (∀ s : List ℚ, s ≠ [] →
        SuggestionEngine.listMax s - SuggestionEngine.listMin s
          < 1/100000000 →
        normalize s = s.map (fun _ => 0))
    ∧ (∀ (ae ifm : Detector) (scaler : Scaler) (metric : String)
        (rows : List FVec) (aeS ifS : List ℚ),
        autoencoder_reconstruction_error ae rows = .ok aeS →
        isolation_forest_scores ifm scaler rows = .ok ifS →
        (detect_anomalies ae ifm scaler metric rows).isOk = true)
    ∧ (∀ (ae ifm : Detector) (scaler : Scaler) (metric : String)
        (rows : List FVec) (aeS ifS : List ℚ) (pts : List AnomalyPoint),
        autoencoder_reconstruction_error ae rows = .ok aeS →
        aeS.length = rows.length →
        isolation_forest_scores ifm scaler rows = .ok ifS →
        ifS.length = rows.length →
        detect_anomalies ae ifm scaler metric rows = .ok pts →
        pts.length = rows.length
        ∧ pts.map AnomalyPoint.timestamp = rows.map FVec.ts
        ∧ pts.map AnomalyPoint.score
            = List.zipWith (fun a b => (1/2) * a + (1/2) * b)
                (normalize aeS) (normalize ifS)
        ∧ ∀ p ∈ pts, 0 ≤ p.score ∧ p.score ≤ 1) := by
  refine ⟨fun ae ifm scaler metric => rfl, ?_, ?_, ?_⟩
  · intro s hne hlt
    unfold normalize
    split
    · rename_i hemp
      rw [List.isEmpty_iff] at hemp
      exact absurd hemp hne
    · dsimp only
      rw [if_pos hlt]
  · intro ae ifm scaler metric rows aeS ifS hae hif
    cases rows with
    | nil => rfl
    | cons r rs =>
        rw [detect_ok_char ae ifm scaler metric (r :: rs) aeS ifS
          (by simp) hae hif]
        rfl
  · intro ae ifm scaler metric rows aeS ifS pts hae hlen₁ hif hlen₂ hdet
    cases rows with
    | nil =>
        have hpts : pts = [] := by
          have h₀ : detect_anomalies ae ifm scaler metric
              ([] : List FVec) = .ok [] := rfl
          rw [h₀] at hdet
          exact ((Except.ok.injEq _ _).mp hdet).symm
      
        have haeS : aeS = [] := List.length_eq_zero.mp (by simpa using hlen₁)
        have hifS : ifS = [] := List.length_eq_zero.mp (by simpa using hlen₂)
        subst hpts haeS hifS
        refine ⟨rfl, rfl, rfl, ?_⟩
        intro p hp
        simp at hp
    | cons r rs =>
        rw [detect_ok_char ae ifm scaler metric (r :: rs) aeS ifS
          (by simp) hae hif] at hdet
        have hpts := (Except.ok.injEq _ _).mp hdet
        have hcl : (List.zipWith (fun a b => (1/2) * a + (1/2) * b)
            (normalize aeS) (normalize ifS)).length = (r :: rs).length := by
          rw [List.length_zipWith, normalize_length, normalize_length,
            hlen₁, hlen₂]
          simp
        refine ⟨?_, ?_, ?_, ?_⟩
        · rw [← hpts, List.length_map, List.length_zip, hcl]
          simp
        · rw [← hpts, List.map_map]
          exact zip_map_fst FVec.ts (r :: rs) _ hcl
        · rw [← hpts, List.map_map]
          exact zip_map_snd (r :: rs) _ hcl
        · intro p hp
          rw [← hpts] at hp
          obtain ⟨rc, hrc, hrceq⟩ := List.mem_map.mp hp
          obtain ⟨a, b⟩ := rc
          have hbc : b ∈ List.zipWith (fun a b => (1/2) * a + (1/2) * b)
              (normalize aeS) (normalize ifS) := (List.of_mem_zip hrc).2
          have hb := combined_mem_bounds (normalize aeS) (normalize ifS)
            (normalize_mem_bounds aeS) (normalize_mem_bounds ifS) b hbc
          rw [← hrceq]
          exact hb

/-- Closed instantiation of `C6_ensemble_contract`: empty batch, a
constant batch, and the one-row run with both models unavailable. -/
theorem C6_ensemble_contract_witness :
    detect_anomalies none none none "energy" ([] : List FVec) = .ok []
    ∧ normalize [(0:ℚ)] = [(0:ℚ)].map (fun _ => 0)
    ∧ (detect_anomalies none none none "energy"
        [⟨"t0", 1, 1, 1, 1, 1, 1, 1⟩]).isOk = true
    ∧ ([(⟨"t0", "energy", 1, 0, true⟩ : AnomalyPoint)]).length
        = ([(⟨"t0", 1, 1, 1, 1, 1, 1, 1⟩ : FVec)]).length := by
  refine ⟨C6_ensemble_contract.1 none none none "energy", ?_, ?_, ?_⟩
  · exact C6_ensemble_contract.2.1 [0] (by simp)
      (by norm_num [SuggestionEngine.listMax, SuggestionEngine.listMin])
  · exact C6_ensemble_contract.2.2.1 none none none "energy"
      [⟨"t0", 1, 1, 1, 1, 1, 1, 1⟩] [0] [0] rfl rfl
  · exact (C6_ensemble_contract.2.2.2 none none none "energy"
      [⟨"t0", 1, 1, 1, 1, 1, 1, 1⟩] [0] [0]
      [⟨"t0", "energy", 1, 0, true⟩] rfl (by decide) rfl (by decide)
      detect_single).1

end Anomaly

namespace Anomaly

/-- **C5** counterexample: a detector whose scoring call raises at runtime
(the model artifact loaded fine) aborts the whole pipeline — the route
returns the error instead of an ensemble result built from the remaining
detector, contradicting the claim. -/
theorem C5_counterexample :
    detect_anomalies (some (fun _ => .error "model failure")) none none
        "energy" [⟨"t0", 1, 1, 1, 1, 1, 1, 1⟩]
      = .error "model failure" := rfl

/-- **C5** as amended: only *load*-unavailability (a `None` model handle)
degrades a detector to a constant-zero contribution with the pipeline
continuing on the remaining detector; a runtime error raised while scoring
a non-empty batch propagates out of `detect_anomalies` and aborts it. -/
theorem C5_failure_semantics :
    (∀ (ifm : Detector) (scaler : Scaler) (metric : String)
        (rows : List FVec) (ifS : List ℚ),
        isolation_forest_scores ifm scaler rows = .ok ifS →
        ifS.length = rows.length →
        ∃ pts, detect_anomalies none ifm scaler metric rows = .ok pts
          ∧ pts.map AnomalyPoint.score
              = (normalize ifS).map (fun y => (1/2) * 0 + (1/2) * y))
    ∧ (∀ (f : List FVec → Except String (List ℚ)) (ifm : Detector)
        (scaler : Scaler) (metric : String) (rows : List FVec) (e : String),
        rows ≠ [] → f rows = .error e →
        detect_anomalies (some f) ifm scaler metric rows = .error e) := by
  constructor
  · intro ifm scaler metric rows ifS hif hlen
    cases rows with
    | nil =>
        have h₀ : isolation_forest_scores ifm scaler ([] : List FVec)
            = .ok [] := rfl
        rw [h₀] at hif
        have hifS : ifS = [] := ((Except.ok.injEq _ _).mp hif).symm
        subst hifS
        exact ⟨[], rfl, by simp [normalize]⟩
    | cons r rs =>
        have hae : autoencoder_reconstruction_error none (r :: rs)
            = .ok ((r :: rs).map fun _ => 0) := rfl
        refine ⟨_, detect_ok_char none ifm scaler metric (r :: rs)
          ((r :: rs).map fun _ => 0) ifS (by simp) hae hif, ?_⟩
        have hz : normalize ((r :: rs).map fun _ => (0:ℚ))
            = (r :: rs).map fun _ => 0 := by
          rw [normalize_all_zero (by simp) (by
            intro y hy
            obtain ⟨x, hxm, hx⟩ := List.mem_map.mp hy
            exact hx.symm)]
          simp [List.map_map]
        have hnl : (normalize ifS).length = (r :: rs).length := by
          rw [normalize_length, hlen]
        have hcomb : List.zipWith (fun a b => (1/2 : ℚ) * a + (1/2) * b)
            (normalize ((r :: rs).map fun _ => 0)) (normalize ifS)
            = (normalize ifS).map (fun y => (1/2) * 0 + (1/2) * y) := by
          rw [hz]
          exact zipWith_const_left _ 0 (r :: rs) (normalize ifS) hnl
        have hcl : (List.zipWith (fun a b => (1/2 : ℚ) * a + (1/2) * b)
            (normalize ((r :: rs).map fun _ => 0))
            (normalize ifS)).length = (r :: rs).length := by
          rw [hcomb, List.length_map, hnl]
        rw [List.map_map]
        exact (zip_map_snd (r :: rs) _ hcl).trans hcomb
  · intro f ifm scaler metric rows e hne hf
    have hemp : rows.isEmpty = false := by
      cases rows
      · exact absurd rfl hne
      · rfl
    unfold detect_anomalies autoencoder_reconstruction_error
    rw [hemp]
    simp only [Bool.false_eq_true, if_false, hf]

/-- Closed instantiation of `C5_failure_semantics`: with the autoencoder
unavailable the one-row run still succeeds; with a raising detector the
run returns the error. -/
theorem C5_failure_semantics_witness :
    (detect_anomalies none none none "energy"
        [⟨"t0", 1, 1, 1, 1, 1, 1, 1⟩]).isOk = true
    ∧ detect_anomalies (some (fun _ => Except.error "boom")) none none
        "energy" [⟨"t0", 1, 1, 1, 1, 1, 1, 1⟩] = .error "boom" := by
  constructor
  · obtain ⟨pts, hdet, hsc⟩ := C5_failure_semantics.1 none none "energy"
      [⟨"t0", 1, 1, 1, 1, 1, 1, 1⟩] [0] rfl (by decide)
    rw [hdet]
    rfl
  · exact C5_failure_semantics.2 _ none none "energy"
      [⟨"t0", 1, 1, 1, 1, 1, 1, 1⟩] "boom" (by simp) rfl

end Anomaly

namespace Anomaly

theorem normalize_01 : normalize [(0:ℚ), 1] = [0, 1] := by
  unfold normalize
  dsimp only [SuggestionEngine.listMin, SuggestionEngine.listMax, List.foldl]
  norm_num [min_def, max_def]

theorem normalize_00 : normalize [(0:ℚ), 0] = [0, 0] := by
  have h := normalize_all_zero (s := [(0:ℚ), 0]) (by simp)
    (by intro y hy; simp at hy; exact hy)
  simpa using h

theorem zipWith_half_01_00 :
    List.zipWith (fun a b => (1/2 : ℚ) * a + (1/2) * b) [0, 1] [0, 0]
      = [0, 1/2] := by
  norm_num

theorem quantile90_pair : quantile90 [(0:ℚ), 1/2] = 9/20 := by
  unfold quantile90
  norm_num [sortAsc, insertAsc, Int.floor_eq_zero_iff, List.getD]

/-- **C4** counterexample: `detect_anomalies` — the only scorer entry
point the claim describes — takes no threshold-policy parameter and always
applies the adaptive 0.9-quantile rule: on this concrete batch it flags a
row whose combined score `1/2` is below `0.85`, which the claimed
caller-chosen fixed policy would never flag. -/
theorem C4_counterexample :
    detect_anomalies (some (fun _ => .ok [0, 1])) none none "energy"
        [⟨"t0", 1, 1, 1, 1, 1, 1, 1⟩, ⟨"t1", 2, 1, 1, 1, 1, 1, 1⟩]
      = .ok [⟨"t0", "energy", 1, 0, false⟩,
             ⟨"t1", "energy", 2, 1/2, true⟩]
    ∧ ((1:ℚ)/2 < 17/20) := by
  constructor
  · rw [detect_ok_char (some (fun _ => .ok [0, 1])) none none "energy"
      [⟨"t0", 1, 1, 1, 1, 1, 1, 1⟩, ⟨"t1", 2, 1, 1, 1, 1, 1, 1⟩]
      [0, 1] [0, 0] (by simp) rfl rfl]
    rw [normalize_01, normalize_00, zipWith_half_01_00, quantile90_pair]
    simp only [List.zip_cons_cons, List.zip_nil_right, List.map_cons,
      List.map_nil]
    rw [decide_eq_false (by norm_num : ¬((0:ℚ) ≥ 9/20)),
        decide_eq_true (by norm_num : ((1:ℚ)/2 ≥ 9/20))]
    norm_num [featureValue, valueCol, FEATURE_COLS]
  · norm_num

/-- **C4** as amended: the two threshold policies exist but are hardcoded
to separate endpoints rather than being caller-chosen configuration:
`detect_anomalies` (the `/detect` route) always flags a row iff its
combined score is at or above the 0.9 quantile of the batch's combined
scores, and the dashboard's `_build_anomalies` always flags a row iff its
combined score is at least 0.85. -/
theorem C4_threshold_policies :
    (∀ (ae ifm : Detector) (scaler : Scaler) (metric : String)
        (rows : List FVec) (aeS ifS : List ℚ) (pts : List AnomalyPoint),
        autoencoder_reconstruction_error ae rows = .ok aeS →
        isolation_forest_scores ifm scaler rows = .ok ifS →
        detect_anomalies ae ifm scaler metric rows = .ok pts →
        ∀ p ∈ pts, (p.is_anomaly = true ↔
          p.score ≥ quantile90 (List.zipWith (fun a b => (1/2) * a + (1/2) * b)
            (normalize aeS) (normalize ifS))))
    ∧ (∀ (ae ifm : Detector) (scaler : Scaler) (rows : List FVec)
        (rs : List DashRow),
        build_anomalies ae ifm scaler rows = .ok rs →
        ∀ r ∈ rs, (r.is_anomaly = true ↔ r.score ≥ (17:ℚ)/20)) := by
  constructor
  · intro ae ifm scaler metric rows aeS ifS pts hae hif hdet p hp
    cases rows with
    | nil =>
        have h₀ : detect_anomalies ae ifm scaler metric ([] : List FVec)
            = .ok [] := rfl
        rw [h₀] at hdet
        have hpts : pts = [] := ((Except.ok.injEq _ _).mp hdet).symm
        rw [hpts] at hp
        simp at hp
    | cons r rrs =>
        rw [detect_ok_char ae ifm scaler metric (r :: rrs) aeS ifS
          (by simp) hae hif] at hdet
        have hpts := (Except.ok.injEq _ _).mp hdet
        rw [← hpts] at hp
        obtain ⟨rc, hrc, hrceq⟩ := List.mem_map.mp hp
        rw [← hrceq]
        simp [decide_eq_true_eq]
  · intro ae ifm scaler rows rs hbuild r hr
    cases rows with
    | nil =>
        have h₀ : build_anomalies ae ifm scaler ([] : List FVec)
            = .ok [] := rfl
        rw [h₀] at hbuild
        have hrs : rs = [] := ((Except.ok.injEq _ _).mp hbuild).symm
        rw [hrs] at hr
        simp at hr
    | cons x xs =>
        obtain ⟨aeS, hae⟩ : ∃ aeS,
            autoencoder_reconstruction_error ae (x :: xs) = .ok aeS
            ∨ ∃ e, autoencoder_reconstruction_error ae (x :: xs) = .error e := by
          cases h : autoencoder_reconstruction_error ae (x :: xs) with
          | ok v => exact ⟨v, Or.inl rfl⟩
          | error e => exact ⟨[], Or.inr ⟨e, rfl⟩⟩
        rcases hae with hae | ⟨e, hae⟩
        · obtain ⟨ifS, hif⟩ : ∃ ifS,
              isolation_forest_scores ifm scaler (x :: xs) = .ok ifS
              ∨ ∃ e, isolation_forest_scores ifm scaler (x :: xs) = .error e := by
            cases h : isolation_forest_scores ifm scaler (x :: xs) with
            | ok v => exact ⟨v, Or.inl rfl⟩
            | error e => exact ⟨[], Or.inr ⟨e, rfl⟩⟩
          rcases hif with hif | ⟨e, hif⟩
          · rw [build_ok_char ae ifm scaler (x :: xs) aeS ifS
              (by simp) hae hif] at hbuild
            have hrs := (Except.ok.injEq _ _).mp hbuild
            rw [← hrs] at hr
            obtain ⟨rc, hrc, hrceq⟩ := List.mem_map.mp hr
            rw [← hrceq]
            simp [decide_eq_true_eq]
          · exfalso
            have hemp : (x :: xs).isEmpty = false := rfl
            unfold build_anomalies at hbuild
            rw [hemp] at hbuild
            simp only [Bool.false_eq_true, if_false, hae, hif] at hbuild
            exact absurd hbuild (by simp)
        · exfalso
          have hemp : (x :: xs).isEmpty = false := rfl
          unfold build_anomalies at hbuild
          rw [hemp] at hbuild
          simp only [Bool.false_eq_true, if_false, hae] at hbuild
          exact absurd hbuild (by simp)

/-- Closed instantiation of `C4_threshold_policies` at one-row runs of
both endpoints. -/
theorem C4_threshold_policies_witness :
    ((AnomalyPoint.mk "t0" "energy" 1 0 true).is_anomaly = true ↔
      (AnomalyPoint.mk "t0" "energy" 1 0 true).score
        ≥ quantile90 (List.zipWith (fun a b => (1/2) * a + (1/2) * b)
            (normalize [0]) (normalize [0])))
    ∧ ((DashRow.mk "t0" 0 false).is_anomaly = true ↔
        (DashRow.mk "t0" 0 false).score ≥ (17:ℚ)/20) :=
  ⟨C4_threshold_policies.1 none none none "energy"
      [⟨"t0", 1, 1, 1, 1, 1, 1, 1⟩] [0] [0] [⟨"t0", "energy", 1, 0, true⟩]
      rfl rfl detect_single _ (List.mem_singleton.mpr rfl),
   C4_threshold_policies.2 none none none
      [⟨"t0", 1, 1, 1, 1, 1, 1, 1⟩] [⟨"t0", 0, false⟩]
      build_single _ (List.mem_singleton.mpr rfl)⟩

end Anomaly
